import Mathlib

/-!
# Verification of the Aether audio-event distribution core

A shallow embedding of the Aether repository's shared-memory event channel
(`aether_shm.py`), the band analyzer and event builder of the audio daemon
(`aether_daemon.py`), and the query client (`aether_client.py`), together
with proofs of the behavioural properties claimed in the specification.

Conventions of the embedding:
* bytes are `Nat` values (each `< 256` where it matters), the 4096-byte
  mmap region is a `List Nat`;
* Python `float` audio values are embedded as rationals `ℚ` (Python floats
  are dyadic rationals; all arithmetic used by the code is exact on them),
  and `math.log10` — a transcendental function external to the repository —
  is passed in as an abstract function `ℚ → ℚ`;
* fallible steps (`json.dumps`/`json.loads`, caught exceptions) are
  `Option`/`Except` values;
* the numpy FFT (`np.fft.rfft`, external to the repository) is abstracted:
  the analyzer is embedded from the point where the code owns the data,
  taking the magnitude spectrum (a list of (frequency, magnitude) pairs)
  as input.
-/

namespace Aether

/-! ## Shared-memory channel (`aether_shm.py`)

Protocol constants, byte-level header packing (`struct.pack("@4sIQI", ...)`
on a little-endian platform), and the writer/reader state machines.
-/

/-- `SHM_SIZE = 4096`: size of the shared memory region in bytes. -/
def SHM_SIZE : Nat := 4096

/-- `MAGIC = b"AEHR"` as bytes. -/
def MAGIC : List Nat := [0x41, 0x45, 0x48, 0x52]

/-- `VERSION = 1`. -/
def VERSION : Nat := 1

/-- `HEADER_SIZE = struct.calcsize("@4sIQI") = 4 + 4 + 8 + 4 = 20`. -/
def HEADER_SIZE : Nat := 20

/-- `MAX_PAYLOAD_SIZE = SHM_SIZE - HEADER_SIZE`. -/
def MAX_PAYLOAD_SIZE : Nat := SHM_SIZE - HEADER_SIZE

/-- Little-endian byte encoding of a natural number into `w` bytes
(the `I`/`Q` fields of `struct.pack` on x86). -/
def natToLE : Nat → Nat → List Nat
  | 0, _ => []
  | w + 1, n => (n % 256) :: natToLE w (n / 256)

/-- Little-endian byte decoding (the `struct.unpack` direction). -/
def natFromLE : List Nat → Nat
  | [] => 0
  | b :: bs => b + 256 * natFromLE bs

/-- `struct.pack(HEADER_FORMAT, MAGIC, VERSION, seq, len)`:
magic tag, 4-byte version, 8-byte sequence, 4-byte payload length. -/
def packHeader (seq len : Nat) : List Nat :=
  MAGIC ++ natToLE 4 VERSION ++ natToLE 8 seq ++ natToLE 4 len

/-- `mm.seek(off); mm.write(data)`: overwrite `data.length` bytes of the
region starting at offset `off`. -/
def writeBytes (region : List Nat) (off : Nat) (data : List Nat) : List Nat :=
  region.take off ++ data ++ region.drop (off + data.length)

/-- The magic field of the header stored in a region (offset 0, 4 bytes). -/
def headerMagic (r : List Nat) : List Nat := r.take 4

/-- The version field of the header stored in a region (offset 4, 4 bytes). -/
def headerVersion (r : List Nat) : Nat := natFromLE ((r.drop 4).take 4)

/-- The sequence field of the header stored in a region (offset 8, 8 bytes). -/
def headerSeq (r : List Nat) : Nat := natFromLE ((r.drop 8).take 8)

/-- The payload-length field of the header stored in a region (offset 16, 4 bytes). -/
def headerLen (r : List Nat) : Nat := natFromLE ((r.drop 16).take 4)

/-- Writer-side state of `AetherSharedMemory(is_writer=True)`:
whether the mmap could be created (`is_available()`), the in-process
`last_sequence` counter, and the bytes of the region. -/
structure ShmWriter where
  available : Bool
  last_sequence : Nat
  region : List Nat
deriving DecidableEq

/-- `AetherSharedMemory.write_event`.

The serialization step `json.dumps(event).encode("utf-8")` can raise (a
non-serializable object); its outcome is the `serialized : Option (List Nat)`
argument, `none` meaning the exception path (caught by the `except` block,
which returns `False`).  On success the code truncates an oversized payload
to `MAX_PAYLOAD_SIZE`, increments the sequence, writes payload bytes first
and then commits the header.  The embedding is a total function: the Python
method never lets an exception escape. -/
def write_event (s : ShmWriter) (serialized : Option (List Nat)) :
    Bool × ShmWriter :=
  if s.available = false then (false, s)
  else
    match serialized with
    | none => (false, s)
    | some data0 =>
      let data := if data0.length > MAX_PAYLOAD_SIZE
                  then data0.take MAX_PAYLOAD_SIZE else data0
      let dataLen := data.length
      let seq := s.last_sequence + 1
      let r1 := writeBytes s.region HEADER_SIZE data
      let r2 := writeBytes r1 0 (packHeader seq dataLen)
      (true, { available := s.available, last_sequence := seq, region := r2 })

/-- `AetherSharedMemory.read_event` for a reader.

The three memory accesses the method performs may each observe a different
snapshot of the region (a concurrent writer may run in between), so the
embedding takes three region snapshots: `r1` for the initial 20-byte header
read, `r2` for the payload read, `r3` for the re-read of the sequence field
at offset 8.  `deserialize` is the outcome of
`json.loads(data.decode("utf-8"))` (`none` = decode exception, caught by the
`except` block).  Returns the event (or `none`) together with the updated
`last_sequence`. -/
def read_event_at {Ev : Type} (avail : Bool)
    (deserialize : List Nat → Option Ev)
    (r1 r2 r3 : List Nat) (last : Nat) : Option Ev × Nat :=
  if avail = false then (none, last)
  else if (r1.take HEADER_SIZE).length < HEADER_SIZE then (none, last)
  else if headerMagic r1 ≠ MAGIC ∨ headerVersion r1 ≠ VERSION then (none, last)
  else if headerSeq r1 = 0 ∨ headerSeq r1 ≤ last then (none, last)
  else if headerLen r1 = 0 ∨ headerLen r1 > MAX_PAYLOAD_SIZE then (none, last)
  else if headerSeq r1 ≠ headerSeq r3 then (none, last)
  else
    match deserialize ((r2.drop HEADER_SIZE).take (headerLen r1)) with
    | none => (none, last)
    | some ev => (some ev, headerSeq r1)

/-- `read_event` when no concurrent writer interleaves: all three reads see
the same region snapshot. -/
def read_event {Ev : Type} (avail : Bool) (deserialize : List Nat → Option Ev)
    (r : List Nat) (last : Nat) : Option Ev × Nat :=
  read_event_at avail deserialize r r r last

/-- The header sequence numbers of the frames returned by a subscriber that
polls once per region snapshot in `rs`, starting from last-consumed `last`. -/
def pollSeqs {Ev : Type} (avail : Bool) (deserialize : List Nat → Option Ev) :
    List (List Nat) → Nat → List Nat
  | [], _ => []
  | r :: rs, last =>
    match read_event avail deserialize r last with
    | (some _, last') => last' :: pollSeqs avail deserialize rs last'
    | (none, last') => pollSeqs avail deserialize rs last'

/-! ## JSON wire format (`json.dumps` / `json.loads`)

The payload of the channel is `json.dumps(event).encode("utf-8")` on the
writer side and `json.loads(data.decode("utf-8"))` on the reader side.
The Python `json` standard library is external to the repository; it is
modelled here for the value universe that the event schema uses:
JSON objects with string keys, whose values are strings, integers,
finite floats and nested objects.  Numbers are modelled exactly:
a Python `int` as an `Int`, a finite Python `float` (always a dyadic,
hence decimal, rational) as a scaled decimal — mantissa and number of
fractional digits — written in plain decimal notation.
-/

mutual
/-- A JSON value of the event schema's universe. -/
inductive JVal : Type where
  | jint : Int → JVal
  | jnum : Int → Nat → JVal
  | jstr : List Char → JVal
  | jobj : JMembers → JVal
  deriving DecidableEq
/-- The key/value members of a JSON object, in insertion order
(Python dicts preserve insertion order). -/
inductive JMembers : Type where
  | nil : JMembers
  | cons : List Char → JVal → JMembers → JMembers
  deriving DecidableEq
end

/-- The values stored in a member list. -/
def memVals : JMembers → List JVal
  | .nil => []
  | .cons _ v ms => v :: memVals ms

/-- ASCII decimal digit test (codepoints 48–57). -/
def isDigitCh (c : Char) : Bool := 48 ≤ c.toNat && c.toNat ≤ 57

/-- JSON whitespace test (space, tab, newline, carriage return). -/
def isWsCh (c : Char) : Bool :=
  c.toNat = 32 || c.toNat = 9 || c.toNat = 10 || c.toNat = 13

/-- The numeric value of a decimal digit character. -/
def digitVal (c : Char) : Nat := c.toNat - 48

/-- The character of a decimal digit. -/
def digitChar : Nat → Char
  | 0 => '0' | 1 => '1' | 2 => '2' | 3 => '3' | 4 => '4'
  | 5 => '5' | 6 => '6' | 7 => '7' | 8 => '8' | _ => '9'

/-- Fuel-indexed decimal printer for naturals (most significant digit
first, accumulated on the right); structural in the fuel so that it
evaluates by kernel reduction. -/
def natDigitsAux : Nat → Nat → List Char → List Char
  | 0, _, acc => acc
  | fuel + 1, n, acc =>
    if n < 10 then digitChar n :: acc
    else natDigitsAux fuel (n / 10) (digitChar (n % 10) :: acc)

/-- Decimal digits of a natural number, as Python's `repr`/`str` prints it
(no leading zeros; `0` prints as `"0"`). -/
def natDigits (n : Nat) : List Char := natDigitsAux (n + 1) n []

/-- `natDigits n` left-padded with `'0'` to exactly `e` digits (the
fractional part of a float's decimal notation). -/
def natDigitsPadded (e n : Nat) : List Char :=
  List.replicate (e - (natDigits n).length) '0' ++ natDigits n

/-- The numeric value of a digit string, accumulator style. -/
def digitsToNat (acc : Nat) : List Char → Nat
  | [] => acc
  | c :: cs => digitsToNat (acc * 10 + digitVal c) cs

/-- Split a maximal run of leading decimal digits from the input. -/
def takeDigits : List Char → List Char × List Char
  | [] => ([], [])
  | c :: cs =>
    if isDigitCh c then
      ((c :: (takeDigits cs).1), (takeDigits cs).2)
    else ([], c :: cs)

/-- Drop leading JSON whitespace. -/
def skipWs : List Char → List Char
  | [] => []
  | c :: cs => if isWsCh c then skipWs cs else c :: cs

/-- Scan the body of a JSON string after the opening quote, up to the
closing quote (the schema's strings contain no escapes). -/
def scanString : List Char → Option (List Char × List Char)
  | [] => none
  | c :: cs =>
    if c = '"' then some ([], cs)
    else
      match scanString cs with
      | none => none
      | some (s, r) => some (c :: s, r)

/-- Apply a parsed minus sign to a parsed magnitude. -/
def intOfSign (neg : Bool) (n : Nat) : Int :=
  if neg then -(n : Int) else (n : Int)

/-- Parse the digits of a JSON number after an optional minus sign:
an integer literal, or a float literal with a `'.'` and at least one
fractional digit. -/
def parseNumberCore (neg : Bool) (s : List Char) : Option (JVal × List Char) :=
  if (takeDigits s).1 = [] then none
  else
    match (takeDigits s).2 with
    | [] => some (.jint (intOfSign neg (digitsToNat 0 (takeDigits s).1)), [])
    | c :: s3 =>
      if c = '.' then
        if (takeDigits s3).1 = [] then none
        else
          some (.jnum
            (intOfSign neg (digitsToNat 0 ((takeDigits s).1 ++ (takeDigits s3).1)))
            (takeDigits s3).1.length, (takeDigits s3).2)
      else some (.jint (intOfSign neg (digitsToNat 0 (takeDigits s).1)), c :: s3)

/-- Parse a JSON number (optional minus sign, then digits). -/
def parseNumber (s : List Char) : Option (JVal × List Char) :=
  match s with
  | [] => none
  | c :: t => if c = '-' then parseNumberCore true t else parseNumberCore false s

/-- `str(int)`: decimal notation of a Python integer. -/
def dumpInt (m : Int) : List Char :=
  if m < 0 then '-' :: natDigits m.natAbs else natDigits m.natAbs

/-- `repr(float)` for a finite float written in plain decimal notation:
sign, integer part, `'.'`, exactly `e` fractional digits. -/
def dumpFloat (m : Int) (e : Nat) : List Char :=
  (if m < 0 then ['-'] else []) ++
    natDigits (m.natAbs / 10 ^ e) ++ '.' :: natDigitsPadded e (m.natAbs % 10 ^ e)

mutual
/-- `json.dumps` with its default separators (`", "` and `": "`). -/
def dumpVal : JVal → List Char
  | .jint m => dumpInt m
  | .jnum m e => dumpFloat m e
  | .jstr s => '"' :: s ++ ['"']
  | .jobj ms => '{' :: dumpMembers ms ++ ['}']
/-- The comma-separated member list of a dumped JSON object. -/
def dumpMembers : JMembers → List Char
  | .nil => []
  | .cons k v .nil => '"' :: k ++ '"' :: ':' :: ' ' :: dumpVal v
  | .cons k v (.cons k2 v2 ms) =>
      '"' :: k ++ '"' :: ':' :: ' ' :: dumpVal v ++
        ',' :: ' ' :: dumpMembers (.cons k2 v2 ms)
end

/-- A string character `json.dumps` emits verbatim (no escaping needed):
not a quote, not a backslash, not a control character. -/
def strOkCh (c : Char) : Bool := c ≠ '"' && c ≠ '\\' && 32 ≤ c.toNat

/-- All characters of the string are emitted verbatim. -/
def strOk (s : List Char) : Bool := s.all strOkCh

mutual
/-- Well-formed value of the schema universe: strings need no escaping,
floats print with at least one fractional digit. -/
def wfVal : JVal → Bool
  | .jint _ => true
  | .jnum _ e => decide (1 ≤ e)
  | .jstr s => strOk s
  | .jobj ms => wfMembers ms
/-- Well-formedness of object members. -/
def wfMembers : JMembers → Bool
  | .nil => true
  | .cons k v ms => strOk k && wfVal v && wfMembers ms
end

mutual
/-- Parser fuel needed for a value (an upper bound on nesting). -/
def needV : JVal → Nat
  | .jint _ => 1
  | .jnum _ _ => 1
  | .jstr _ => 1
  | .jobj ms => 1 + needM ms
/-- Parser fuel needed for an object's member list. -/
def needM : JMembers → Nat
  | .nil => 0
  | .cons _ v ms => max (needV v) (1 + needM ms)
end

/-- Parse the members of a JSON object (after the opening brace of a
non-empty object), consuming the closing brace.  Values are parsed by the
supplied parser `pv`; the fuel bounds the number of members. -/
def parseMembersWith (pv : List Char → Option (JVal × List Char)) :
    Nat → List Char → Option (JMembers × List Char)
  | 0, _ => none
  | mf + 1, s =>
    match skipWs s with
    | [] => none
    | c :: t =>
      if c = '"' then
        match scanString t with
        | none => none
        | some (k, r1) =>
          match skipWs r1 with
          | [] => none
          | c2 :: t2 =>
            if c2 = ':' then
              match pv t2 with
              | none => none
              | some (v, r3) =>
                match skipWs r3 with
                | [] => none
                | c3 :: t3 =>
                  if c3 = ',' then
                    match parseMembersWith pv mf t3 with
                    | none => none
                    | some (ms, r5) => some (.cons k v ms, r5)
                  else if c3 = '}' then some (.cons k v .nil, t3)
                  else none
            else none
      else none

/-- Fuel-indexed recursive-descent parser for a JSON value, modelling
`json.loads` on the schema universe (strings, objects, numbers, arbitrary
interleaving whitespace). -/
def parseVal : Nat → List Char → Option (JVal × List Char)
  | 0, _ => none
  | fuel + 1, s =>
    match skipWs s with
    | [] => none
    | c :: t =>
      if c = '"' then
        match scanString t with
        | none => none
        | some (str, r) => some (.jstr str, r)
      else if c = '{' then
        match skipWs t with
        | [] => none
        | c2 :: t2 =>
          if c2 = '}' then some (.jobj .nil, t2)
          else
            match parseMembersWith (parseVal fuel) fuel (c2 :: t2) with
            | none => none
            | some (ms, r) => some (.jobj ms, r)
      else parseNumber (c :: t)

/-- `json.dumps(event)` as a character string. -/
def jsonDumps (v : JVal) : List Char := dumpVal v

/-- `json.loads`: parse one JSON value; trailing data other than
whitespace is an error (`json.loads` raises `Extra data`). -/
def jsonLoads (s : List Char) : Option JVal :=
  match parseVal (s.length + 1) s with
  | none => none
  | some (v, rest) => if skipWs rest = [] then some v else none

/-- `json.dumps(event).encode("utf-8")`: the payload bytes (the schema's
characters are ASCII, where UTF-8 is the identity on codepoints). -/
def encodePayload (v : JVal) : List Nat := (jsonDumps v).map Char.toNat

/-- `json.loads(data.decode("utf-8"))`, `none` when decoding fails. -/
def decodePayload (bs : List Nat) : Option JVal :=
  jsonLoads (bs.map fun b => Char.ofNat b)

/-- The suffix following a dumped number must not extend the number:
it is empty or starts with a non-digit other than `'.'`. -/
def numSafe : List Char → Bool
  | [] => true
  | c :: _ => !isDigitCh c && c ≠ '.'

/-- The band keys of the event schema, in the order the daemon's
`get_frequency_bands` inserts them, followed by `"total"`. -/
def bandKeyList : List (List Char) :=
  ["sub_bass".toList, "bass".toList, "low_mid".toList, "mid".toList,
   "high_mid".toList, "treble".toList, "sparkle".toList, "total".toList]

/-- The `bands` sub-object has exactly the given keys, in order, each
mapped to a well-formed float. -/
def bandsShape : JMembers → List (List Char) → Bool
  | .nil, [] => true
  | .cons k (.jnum _ e) ms, key :: keys =>
    k == key && decide (1 ≤ e) && bandsShape ms keys
  | _, _ => false

/-- A valid `BandEvent` as the daemon publishes it: an object with keys
`type` (the string `"audio"`), `bands` (the seven bands plus `total`,
all finite floats), `frequency` (an integer) and `amplitude` (a finite
float). -/
def validBandEvent : JVal → Bool
  | .jobj (.cons k1 (.jstr ty) (.cons k2 (.jobj bands)
      (.cons k3 (.jint _) (.cons k4 (.jnum _ ae) .nil)))) =>
    k1 == "type".toList && ty == "audio".toList && k2 == "bands".toList &&
    bandsShape bands bandKeyList && k3 == "frequency".toList &&
    k4 == "amplitude".toList && decide (1 ≤ ae)
  | _ => false

/-- The JSON value of a daemon event dict
`{"type": "audio", "bands": {...}, "frequency": f, "amplitude": a}`:
every valid `BandEvent` has this shape. -/
def bandEventJson (bands : JMembers) (freq am : Int) (ae : Nat) : JVal :=
  .jobj (.cons ("type".toList) (.jstr ("audio".toList))
    (.cons ("bands".toList) (.jobj bands)
      (.cons ("frequency".toList) (.jint freq)
        (.cons ("amplitude".toList) (.jnum am ae) .nil))))

/-! ## Band analyzer and event builder (`aether_daemon.py`)

Python float values are embedded as rationals; `math.log10` (external,
transcendental) is an abstract parameter.  `np.fft.rfft`/`np.abs` are
external to the repository, so the analyzer is embedded from the
magnitude spectrum onwards: `spectrum` is the list of
(frequency, magnitude) pairs `zip(freqs, fft_magnitude)`.
-/

/-- `LOG_ENERGY_MIN_BAND = 5.5`. -/
def LOG_ENERGY_MIN_BAND : ℚ := 11 / 2

/-- `LOG_ENERGY_RANGE_BAND = 2.0`. -/
def LOG_ENERGY_RANGE_BAND : ℚ := 2

/-- `LOG_ENERGY_MIN_TOTAL = 6.0`. -/
def LOG_ENERGY_MIN_TOTAL : ℚ := 6

/-- `LOG_ENERGY_RANGE_TOTAL = 2.0`. -/
def LOG_ENERGY_RANGE_TOTAL : ℚ := 2

/-- `FREQUENCY_BANDS`: the seven named bands and their `[low, high)`
frequency ranges in Hz, in insertion order. -/
def FREQUENCY_BANDS : List (String × ℚ × ℚ) :=
  [("sub_bass", 20, 60), ("bass", 60, 250), ("low_mid", 250, 500),
   ("mid", 500, 1000), ("high_mid", 1000, 2000), ("treble", 2000, 4000),
   ("sparkle", 4000, 8000)]

/-- `AUDIBLE_FREQ_MIN = 20`. -/
def AUDIBLE_FREQ_MIN : ℚ := 20

/-- `AUDIBLE_FREQ_MAX = 8000`. -/
def AUDIBLE_FREQ_MAX : ℚ := 8000

/-- `BAND_CENTER_FREQUENCIES`: representative center frequency of each band. -/
def BAND_CENTER_FREQUENCIES : List (String × Nat) :=
  [("sub_bass", 40), ("bass", 150), ("low_mid", 375), ("mid", 750),
   ("high_mid", 1500), ("treble", 3000), ("sparkle", 6000)]

/-- `DEFAULT_FREQUENCY = 440`. -/
def DEFAULT_FREQUENCY : Nat := 440

/-- `np.sum(fft_magnitude[(freqs >= low) & (freqs < high)])`. -/
def bandSum (spectrum : List (ℚ × ℚ)) (low high : ℚ) : ℚ :=
  ((spectrum.filter fun p => decide (low ≤ p.1) && decide (p.1 < high)).map
    Prod.snd).sum

/-- `max(0.0, min(1.0, x))`. -/
def clamp01 (x : ℚ) : ℚ := max 0 (min 1 x)

/-- The per-band branch of `get_frequency_bands`: `0` for zero energy,
otherwise the clamped, rescaled `log10`. -/
def normalizeBand (log10 : ℚ → ℚ) (energy : ℚ) : ℚ :=
  if 0 < energy then
    clamp01 ((log10 energy - LOG_ENERGY_MIN_BAND) / LOG_ENERGY_RANGE_BAND)
  else 0

/-- The total-energy branch of `get_frequency_bands` (distinct floor). -/
def normalizeTotal (log10 : ℚ → ℚ) (energy : ℚ) : ℚ :=
  if 0 < energy then
    clamp01 ((log10 energy - LOG_ENERGY_MIN_TOTAL) / LOG_ENERGY_RANGE_TOTAL)
  else 0

/-- `AetherDaemon.get_frequency_bands`: the band-energy dict, in insertion
order — the seven named bands, then `"total"`. -/
def get_frequency_bands (log10 : ℚ → ℚ) (spectrum : List (ℚ × ℚ)) :
    List (String × ℚ) :=
  (FREQUENCY_BANDS.map fun b =>
    (b.1, normalizeBand log10 (bandSum spectrum b.2.1 b.2.2))) ++
  [("total",
    normalizeTotal log10 (bandSum spectrum AUDIBLE_FREQ_MIN AUDIBLE_FREQ_MAX))]

/-- `dict.get(k, default)` on an insertion-ordered association list. -/
def lookupD {α : Type} (l : List (String × α)) (k : String) (d : α) : α :=
  match l.find? (fun p => p.1 == k) with
  | some p => p.2
  | none => d

/-- Python's `max(iterable, key=...)`: fold keeping the current best and
replacing it only on a strictly larger key, so the first element attaining
the maximum wins ties. -/
def pythonMaxBy (key : (String × ℚ) → ℚ) (best : String × ℚ) :
    List (String × ℚ) → String × ℚ
  | [] => best
  | x :: xs => pythonMaxBy key (if key best < key x then x else best) xs

/-- A Python value appearing in the daemon's `event_data` dict. -/
inductive PyVal : Type where
  | pstr : String → PyVal
  | pint : Nat → PyVal
  | pnum : ℚ → PyVal
  | pbands : List (String × ℚ) → PyVal
deriving DecidableEq

/-- `dict.get(k)` over the event dict. -/
def pyLookup (l : List (String × PyVal)) (k : String) : Option PyVal :=
  match l.find? (fun p => p.1 == k) with
  | some p => some p.2
  | none => none

/-- `AetherDaemon.send_event`, up to the construction of `event_data`
(the subsequent IPC write does not alter the dict).  Returns `none` when
no event is emitted: the noise-floor threshold suppresses it.  With an
empty band dict Python's `max()` would raise on the empty iterable; the
daemon's own dicts always hold the seven bands, and no event is emitted
in that case either. -/
def send_event (bands : List (String × ℚ)) :
    Option (List (String × PyVal)) :=
  match bands.filter (fun p => !(p.1 == "total")) with
  | [] => none
  | b :: bs =>
    if lookupD bands "total" 0 < 1 / 10 ∧ (pythonMaxBy Prod.snd b bs).2 < 3 / 20
    then none
    else
      some [("type", .pstr "audio"), ("bands", .pbands bands),
        ("frequency", .pint (lookupD BAND_CENTER_FREQUENCIES
          (pythonMaxBy Prod.snd b bs).1 DEFAULT_FREQUENCY)),
        ("amplitude", .pnum
          (max (lookupD bands "total" 0) (pythonMaxBy Prod.snd b bs).2))]

/-! ## Query client (`aether_client.py`)

`AetherClient` wraps a reader-side `AetherSharedMemory` plus the
`_last_event` cache.  Exceptions Python would raise (only possible on
events that are not objects, which the daemon never publishes) are
`Except.error`. -/

/-- The client's state: the reader's availability and cursor, and
`_last_event`. -/
structure ClientState where
  shm_available : Bool
  shm_last : Nat
  last_event : Option JVal
deriving DecidableEq

/-- The Python float literal `0.0` as a schema value. -/
def float0 : JVal := .jnum 0 1

/-- Python truthiness of a schema value (`if event:`, `if bands:`). -/
def truthy : JVal → Bool
  | .jint n => decide (n ≠ 0)
  | .jnum m _ => decide (m ≠ 0)
  | .jstr s => decide (s ≠ [])
  | .jobj .nil => false
  | .jobj (.cons _ _ _) => true

/-- `dict.get(key)` on an object's members. -/
def jlookup : JMembers → List Char → Option JVal
  | .nil, _ => none
  | .cons k v ms, key => if k = key then some v else jlookup ms key

/-- `AetherClient.get_bands`: poll the channel; on a fresh event that is
truthy and contains `"bands"`, cache it and return its `"bands"` value.
`"bands" in event` on a truthy non-container raises `TypeError`
(`Except.error`); on a string it is substring containment, after which
`event["bands"]` raises. -/
def get_bands (c : ClientState) (r : List Nat) :
    Except Unit (Option JVal × ClientState) :=
  match read_event c.shm_available decodePayload r c.shm_last with
  | (none, last') => .ok (none, { c with shm_last := last' })
  | (some ev, last') =>
    if truthy ev then
      match ev with
      | .jobj ms =>
        match jlookup ms ("bands".toList) with
        | some b =>
          .ok (some b, { c with shm_last := last', last_event := some ev })
        | none => .ok (none, { c with shm_last := last' })
      | .jstr s =>
        if List.IsInfix ("bands".toList) s then .error ()
        else .ok (none, { c with shm_last := last' })
      | _ => .error ()
    else .ok (none, { c with shm_last := last' })

/-- `AetherClient.get_band`: `bands.get(band_name, 0.0) if bands else 0.0`
(`.get` on a truthy non-dict raises). -/
def get_band (c : ClientState) (r : List Nat) (name : List Char) :
    Except Unit (JVal × ClientState) :=
  match get_bands c r with
  | .error e => .error e
  | .ok (bandsOpt, c') =>
    match bandsOpt with
    | none => .ok (float0, c')
    | some b =>
      if truthy b then
        match b with
        | .jobj ms => .ok ((jlookup ms name).getD float0, c')
        | _ => .error ()
      else .ok (float0, c')

/-- `AetherClient.get_total_energy`: `bands.get("total", 0.0) if bands
else 0.0`. -/
def get_total_energy (c : ClientState) (r : List Nat) :
    Except Unit (JVal × ClientState) :=
  match get_bands c r with
  | .error e => .error e
  | .ok (bandsOpt, c') =>
    match bandsOpt with
    | none => .ok (float0, c')
    | some b =>
      if truthy b then
        match b with
        | .jobj ms => .ok ((jlookup ms ("total".toList)).getD float0, c')
        | _ => .error ()
      else .ok (float0, c')

/-- `AetherClient.get_timestamp`: `self._last_event.get("timestamp")` when
a last event is cached and truthy. -/
def get_timestamp (c : ClientState) : Except Unit (Option JVal) :=
  match c.last_event with
  | none => .ok none
  | some ev =>
    if truthy ev then
      match ev with
      | .jobj ms => .ok (jlookup ms ("timestamp".toList))
      | _ => .error ()
    else .ok none

/-! ## Helper lemmas on bytes and the header layout -/

theorem natToLE_length (w n : Nat) : (natToLE w n).length = w := by
  induction w generalizing n with
  | zero => rfl
  | succ w ih => simp [natToLE, ih]

theorem natFromLE_natToLE (w n : Nat) :
    natFromLE (natToLE w n) = n % 256 ^ w := by
  induction w generalizing n with
  | zero => simp [natToLE, natFromLE]; omega
  | succ w ih =>
    rw [natToLE, natFromLE, ih, pow_succ, mul_comm (256 ^ w) 256, Nat.mod_mul]

theorem packHeader_length (s l : Nat) :
    (packHeader s l).length = HEADER_SIZE := by
  simp [packHeader, MAGIC, natToLE_length, HEADER_SIZE]

theorem headerLen_pack (s l : Nat) (t : List Nat) :
    headerLen (packHeader s l ++ t) = l % 2 ^ 32 := by
  have h : (2 : Nat) ^ 32 = 256 ^ 4 := by norm_num
  rw [h]
  simp only [headerLen, packHeader, MAGIC, natToLE]
  simp [natFromLE]
  omega

theorem headerSeq_pack (s l : Nat) (t : List Nat) :
    headerSeq (packHeader s l ++ t) = s % 2 ^ 64 := by
  have h : (2 : Nat) ^ 64 = 256 ^ 8 := by norm_num
  rw [h]
  simp only [headerSeq, packHeader, MAGIC, natToLE]
  simp [natFromLE]
  omega

/-- Exhaustive case analysis of one `read_event` call: either it returns
`none` with the cursor untouched, or it returns a freshly decoded event,
the cursor advances to the (validated, strictly newer) header sequence,
and all protocol checks passed. -/
theorem read_event_at_cases {Ev : Type} (avail : Bool)
    (deserialize : List Nat → Option Ev) (r1 r2 r3 : List Nat) (last : Nat) :
    read_event_at avail deserialize r1 r2 r3 last = (none, last) ∨
    ∃ ev, read_event_at avail deserialize r1 r2 r3 last =
        (some ev, headerSeq r1) ∧
      last < headerSeq r1 ∧ headerSeq r1 ≠ 0 ∧
      headerLen r1 ≠ 0 ∧ headerLen r1 ≤ MAX_PAYLOAD_SIZE ∧
      headerSeq r1 = headerSeq r3 ∧
      headerMagic r1 = MAGIC ∧ headerVersion r1 = VERSION ∧
      deserialize ((r2.drop HEADER_SIZE).take (headerLen r1)) = some ev := by
  unfold read_event_at
  split_ifs with h1 h2 h3 h4 h5 h6 <;> try (left; rfl)
  push_neg at h3 h4 h5 h6
  rcases hd : deserialize ((r2.drop HEADER_SIZE).take (headerLen r1)) with _ | ev
  · left; rfl
  · right
    exact ⟨ev, rfl, h4.2, h4.1, h5.1, h5.2, h6, h3.1, h3.2, rfl⟩

/-- `read_event` when shared memory is unavailable. -/
theorem read_event_at_unavailable {Ev : Type}
    (deserialize : List Nat → Option Ev) (r1 r2 r3 : List Nat) (last : Nat) :
    read_event_at false deserialize r1 r2 r3 last = (none, last) := by
  unfold read_event_at
  rw [if_pos rfl]

/-- Every element produced by a run of polls exceeds the starting cursor. -/
theorem pollSeqs_gt {Ev : Type} (avail : Bool)
    (deserialize : List Nat → Option Ev) (rs : List (List Nat)) :
    ∀ last x, x ∈ pollSeqs avail deserialize rs last → last < x := by
  induction rs with
  | nil => intro last x hx; simp [pollSeqs] at hx
  | cons r rs ih =>
    intro last x hx
    simp only [pollSeqs] at hx
    rcases read_event_at_cases avail deserialize r r r last with h | ⟨ev, h, hlt, _⟩ <;>
      rw [read_event] at hx <;> rw [h] at hx
    · exact ih last x hx
    · rcases List.mem_cons.mp hx with rfl | hx
      · exact hlt
      · exact lt_trans hlt (ih _ x hx)

/-! ### JSON round-trip: digits and characters -/

theorem isDigitCh_digitChar (n : Nat) : isDigitCh (digitChar n) = true := by
  rcases n with _|_|_|_|_|_|_|_|_|n <;> rfl

theorem digitVal_digitChar (n : Nat) (h : n < 10) :
    digitVal (digitChar n) = n := by
  interval_cases n <;> rfl

theorem isDigitCh_spec {c : Char} (h : isDigitCh c = true) :
    c ≠ '-' ∧ c ≠ '.' ∧ c ≠ '"' ∧ c ≠ '{' ∧ c ≠ '}' ∧ c ≠ ',' ∧ c ≠ ':' ∧
      isWsCh c = false := by
  have h48 : 48 ≤ c.toNat ∧ c.toNat ≤ 57 := by simpa [isDigitCh] using h
  refine ⟨?_, ?_, ?_, ?_, ?_, ?_, ?_, ?_⟩
  · intro he; rw [he] at h48; exact absurd h48.1 (by decide)
  · intro he; rw [he] at h48; exact absurd h48.1 (by decide)
  · intro he; rw [he] at h48; exact absurd h48.1 (by decide)
  · intro he; rw [he] at h48; exact absurd h48.2 (by decide)
  · intro he; rw [he] at h48; exact absurd h48.2 (by decide)
  · intro he; rw [he] at h48; exact absurd h48.1 (by decide)
  · intro he; rw [he] at h48; exact absurd h48.2 (by decide)
  · simp only [isWsCh]
    simp only [Bool.or_eq_false_iff, decide_eq_false_iff_not]
    omega

theorem natDigitsAux_append (fuel : Nat) :
    ∀ n acc, natDigitsAux fuel n acc = natDigitsAux fuel n [] ++ acc := by
  induction fuel with
  | zero => intro n acc; rfl
  | succ fuel ih =>
    intro n acc
    by_cases h : n < 10
    · simp [natDigitsAux, h]
    · simp only [natDigitsAux, if_neg h]
      rw [ih (n / 10) (digitChar (n % 10) :: acc),
        ih (n / 10) [digitChar (n % 10)], List.append_assoc]
      rfl

theorem natDigitsAux_fuel (f1 : Nat) :
    ∀ f2 n acc, n < f1 → n < f2 →
      natDigitsAux f1 n acc = natDigitsAux f2 n acc := by
  induction f1 with
  | zero => intro f2 n acc h1; omega
  | succ f1 ih =>
    intro f2 n acc h1 h2
    rcases f2 with _ | f2
    · omega
    by_cases h : n < 10
    · simp [natDigitsAux, h]
    · simp only [natDigitsAux, if_neg h]
      exact ih f2 (n / 10) _ (by omega) (by omega)

theorem natDigits_eq_lo {n : Nat} (h : n < 10) :
    natDigits n = [digitChar n] := by
  rw [natDigits, natDigitsAux, if_pos h]

theorem natDigits_eq_hi {n : Nat} (h : ¬ n < 10) :
    natDigits n = natDigits (n / 10) ++ [digitChar (n % 10)] := by
  rw [natDigits, natDigitsAux, if_neg h,
    natDigitsAux_append n (n / 10) [digitChar (n % 10)],
    natDigitsAux_fuel n (n / 10 + 1) (n / 10) [] (by omega) (by omega)]
  rfl

theorem natDigits_ne_nil (n : Nat) : natDigits n ≠ [] := by
  by_cases h : n < 10
  · rw [natDigits_eq_lo h]; simp
  · rw [natDigits_eq_hi h]; simp

theorem natDigits_digits (n : Nat) : ∀ c ∈ natDigits n, isDigitCh c = true := by
  induction n using Nat.strong_induction_on with
  | _ n ih =>
    by_cases h : n < 10
    · rw [natDigits_eq_lo h]
      intro c hc
      rcases List.mem_singleton.mp hc with rfl
      exact isDigitCh_digitChar n
    · rw [natDigits_eq_hi h]
      intro c hc
      rcases List.mem_append.mp hc with hc | hc
      · exact ih (n / 10) (by omega) c hc
      · rcases List.mem_singleton.mp hc with rfl
        exact isDigitCh_digitChar (n % 10)

theorem digitsToNat_append (xs ys : List Char) :
    ∀ acc, digitsToNat acc (xs ++ ys) =
      digitsToNat (digitsToNat acc xs) ys := by
  induction xs with
  | nil => intro acc; rfl
  | cons x xs ih => intro acc; exact ih (acc * 10 + digitVal x)

theorem digitsToNat_natDigits (n : Nat) :
    ∀ acc, digitsToNat acc (natDigits n) =
      acc * 10 ^ (natDigits n).length + n := by
  induction n using Nat.strong_induction_on with
  | _ n ih =>
    intro acc
    by_cases h : n < 10
    · rw [natDigits_eq_lo h]
      have h1 : digitsToNat acc [digitChar n] =
          acc * 10 + digitVal (digitChar n) := rfl
      rw [h1, digitVal_digitChar n h, List.length_singleton, pow_one]
    · rw [natDigits_eq_hi h, digitsToNat_append,
        ih (n / 10) (by omega) acc]
      have hd : digitVal (digitChar (n % 10)) = n % 10 :=
        digitVal_digitChar _ (by omega)
      have h2 : digitsToNat (acc * 10 ^ (natDigits (n / 10)).length + n / 10)
          [digitChar (n % 10)] =
          (acc * 10 ^ (natDigits (n / 10)).length + n / 10) * 10 +
            digitVal (digitChar (n % 10)) := rfl
      rw [h2, hd, List.length_append, List.length_singleton, pow_succ]
      have hdm : n / 10 * 10 + n % 10 = n := by omega
      calc (acc * 10 ^ (natDigits (n / 10)).length + n / 10) * 10 + n % 10
        = acc * (10 ^ (natDigits (n / 10)).length * 10) +
            (n / 10 * 10 + n % 10) := by ring
      _ = acc * (10 ^ (natDigits (n / 10)).length * 10) + n := by rw [hdm]

theorem digitsToNat0 (n : Nat) : digitsToNat 0 (natDigits n) = n := by
  rw [digitsToNat_natDigits n 0]; ring

theorem natDigits_length_le : ∀ k n, n < 10 ^ (k + 1) →
    (natDigits n).length ≤ k + 1 := by
  intro k
  induction k with
  | zero =>
    intro n h
    rw [natDigits_eq_lo (by omega : n < 10)]
    simp
  | succ k ih =>
    intro n h
    by_cases h10 : n < 10
    · rw [natDigits_eq_lo h10]; simp
    · rw [natDigits_eq_hi h10]
      simp only [List.length_append, List.length_cons, List.length_nil]
      have : n / 10 < 10 ^ (k + 1) := by
        rw [Nat.div_lt_iff_lt_mul (by omega : 0 < 10)]
        calc n < 10 ^ (k + 1 + 1) := h
        _ = 10 ^ (k + 1) * 10 := by ring
      have := ih (n / 10) this
      omega

theorem digitsToNat_replicate (k : Nat) :
    ∀ acc, digitsToNat acc (List.replicate k '0') = acc * 10 ^ k := by
  induction k with
  | zero => intro acc; rw [List.replicate_zero, pow_zero, mul_one]; rfl
  | succ k ih =>
    intro acc
    rw [List.replicate_succ]
    have h1 : digitsToNat acc ('0' :: List.replicate k '0') =
        digitsToNat (acc * 10 + digitVal '0') (List.replicate k '0') := rfl
    have h2 : digitVal '0' = 0 := by decide
    rw [h1, ih (acc * 10 + digitVal '0'), h2, pow_succ]
    ring

theorem takeDigits_split (ds : List Char) (rest : List Char)
    (hds : ∀ c ∈ ds, isDigitCh c = true)
    (hrest : ∀ c cs, rest = c :: cs → isDigitCh c = false) :
    takeDigits (ds ++ rest) = (ds, rest) := by
  induction ds with
  | nil =>
    rcases rest with _ | ⟨c, cs⟩
    · rfl
    · simp only [List.nil_append, takeDigits, hrest c cs rfl]
      rfl
  | cons d ds ih =>
    have hd : isDigitCh d = true := hds d (by simp)
    have ih2 := ih (fun c hc => hds c (by simp [hc]))
    simp only [List.cons_append, takeDigits, hd, if_true, List.append_eq, ih2]

theorem skipWs_cons {c : Char} (t : List Char) (h : isWsCh c = false) :
    skipWs (c :: t) = c :: t := by
  rw [skipWs, h]; rfl

theorem numSafe_cons {c : Char} {cs : List Char}
    (h : numSafe (c :: cs) = true) : isDigitCh c = false ∧ c ≠ '.' := by
  simp only [numSafe, Bool.and_eq_true, Bool.not_eq_true',
    decide_eq_true_eq] at h
  exact h

theorem numSafe_head {rest : List Char} (h : numSafe rest = true) :
    ∀ c cs, rest = c :: cs → isDigitCh c = false := by
  intro c cs hr
  subst hr
  exact (numSafe_cons h).1

theorem natDigitsPadded_digits (e n : Nat) :
    ∀ c ∈ natDigitsPadded e n, isDigitCh c = true := by
  intro c hc
  rw [natDigitsPadded] at hc
  rcases List.mem_append.mp hc with hc | hc
  · rw [List.eq_of_mem_replicate hc]; decide
  · exact natDigits_digits n c hc

theorem natDigitsPadded_length (e n : Nat) (hn : n < 10 ^ e) (he : 1 ≤ e) :
    (natDigitsPadded e n).length = e := by
  rw [natDigitsPadded]
  rw [List.length_append, List.length_replicate]
  have hL : (natDigits n).length ≤ e := by
    rcases e with _ | e
    · omega
    · exact natDigits_length_le e n hn
  omega

theorem digitsToNat_padded (e n : Nat) (hn : n < 10 ^ e) (he : 1 ≤ e)
    (acc : Nat) :
    digitsToNat acc (natDigitsPadded e n) = acc * 10 ^ e + n := by
  rw [natDigitsPadded, digitsToNat_append, digitsToNat_replicate,
    digitsToNat_natDigits]
  have hL : (natDigits n).length ≤ e := by
    rcases e with _ | e
    · omega
    · exact natDigits_length_le e n hn
  rw [mul_assoc, ← pow_add, Nat.sub_add_cancel hL]

theorem parseNumberCore_nat (neg : Bool) (n : Nat) (rest : List Char)
    (hsafe : numSafe rest = true) :
    parseNumberCore neg (natDigits n ++ rest) =
      some (.jint (intOfSign neg (digitsToNat 0 (natDigits n))), rest) := by
  have htd := takeDigits_split (natDigits n) rest (natDigits_digits n)
    (numSafe_head hsafe)
  rcases rest with _ | ⟨c, s3⟩
  · simp only [parseNumberCore, htd]
    rw [if_neg (by simpa using natDigits_ne_nil n)]
  · have hdot : ¬ c = '.' := (numSafe_cons hsafe).2
    simp only [parseNumberCore, htd]
    rw [if_neg (by simpa using natDigits_ne_nil n), if_neg hdot]

theorem parseNumberCore_float (neg : Bool) (n e : Nat) (he : 1 ≤ e)
    (rest : List Char) (hsafe : numSafe rest = true) :
    parseNumberCore neg
      (natDigits (n / 10 ^ e) ++
        ('.' :: (natDigitsPadded e (n % 10 ^ e) ++ rest))) =
      some (.jnum (intOfSign neg n) e, rest) := by
  have hmod : n % 10 ^ e < 10 ^ e := Nat.mod_lt n (by positivity)
  have htd1 := takeDigits_split (natDigits (n / 10 ^ e))
    ('.' :: (natDigitsPadded e (n % 10 ^ e) ++ rest))
    (natDigits_digits _) (by intro c cs h; injection h with h1 _; rw [← h1]; decide)
  have htd2 := takeDigits_split (natDigitsPadded e (n % 10 ^ e)) rest
    (natDigitsPadded_digits _ _) (numSafe_head hsafe)
  have hpadlen : (natDigitsPadded e (n % 10 ^ e)).length = e :=
    natDigitsPadded_length e _ hmod he
  have hpadne : ¬ natDigitsPadded e (n % 10 ^ e) = [] := by
    intro hcon
    rw [hcon] at hpadlen
    simp at hpadlen
    omega
  simp only [parseNumberCore, htd1]
  rw [if_neg (by simpa using natDigits_ne_nil (n / 10 ^ e))]
  simp only [htd2]
  rw [if_true, if_neg hpadne]
  rw [digitsToNat_append, digitsToNat0, digitsToNat_padded e _ hmod he]
  have hval : n / 10 ^ e * 10 ^ e + n % 10 ^ e = n := by
    rw [mul_comm]
    exact Nat.div_add_mod n (10 ^ e)
  rw [hval, hpadlen]

theorem parseNumber_dumpInt (m : Int) (rest : List Char)
    (hsafe : numSafe rest = true) :
    parseNumber (dumpInt m ++ rest) = some (.jint m, rest) := by
  by_cases hm : m < 0
  · rw [dumpInt, if_pos hm, List.cons_append]
    simp only [parseNumber]
    rw [if_true, parseNumberCore_nat true m.natAbs rest hsafe, digitsToNat0]
    have hsign : intOfSign true m.natAbs = m := by
      have h1 : intOfSign true m.natAbs = -(m.natAbs : Int) := rfl
      rw [h1]; omega
    rw [hsign]
  · rw [dumpInt, if_neg hm]
    obtain ⟨c, cs, hcons⟩ := List.exists_cons_of_ne_nil (natDigits_ne_nil m.natAbs)
    have hcdig : isDigitCh c = true :=
      natDigits_digits m.natAbs c (hcons ▸ List.mem_cons_self c cs)
    have hcne : ¬ c = '-' := (isDigitCh_spec hcdig).1
    rw [hcons, List.cons_append]
    simp only [parseNumber]
    rw [if_neg hcne, ← List.cons_append, ← hcons,
      parseNumberCore_nat false m.natAbs rest hsafe, digitsToNat0]
    have hsign : intOfSign false m.natAbs = m := by
      have h1 : intOfSign false m.natAbs = (m.natAbs : Int) := rfl
      rw [h1]; omega
    rw [hsign]

theorem parseNumber_dumpFloat (m : Int) (e : Nat) (he : 1 ≤ e)
    (rest : List Char) (hsafe : numSafe rest = true) :
    parseNumber (dumpFloat m e ++ rest) = some (.jnum m e, rest) := by
  by_cases hm : m < 0
  · have harr : dumpFloat m e ++ rest =
        '-' :: (natDigits (m.natAbs / 10 ^ e) ++
          ('.' :: (natDigitsPadded e (m.natAbs % 10 ^ e) ++ rest))) := by
      rw [dumpFloat, if_pos hm]
      simp [List.append_assoc]
    rw [harr]
    simp only [parseNumber]
    rw [if_true, parseNumberCore_float true m.natAbs e he rest hsafe]
    have hsign : intOfSign true m.natAbs = m := by
      have h1 : intOfSign true m.natAbs = -(m.natAbs : Int) := rfl
      rw [h1]; omega
    rw [hsign]
  · have harr : dumpFloat m e ++ rest =
        natDigits (m.natAbs / 10 ^ e) ++
          ('.' :: (natDigitsPadded e (m.natAbs % 10 ^ e) ++ rest)) := by
      rw [dumpFloat, if_neg hm]
      simp [List.append_assoc]
    obtain ⟨c, cs, hcons⟩ := List.exists_cons_of_ne_nil
      (natDigits_ne_nil (m.natAbs / 10 ^ e))
    have hcdig : isDigitCh c = true :=
      natDigits_digits _ c (hcons ▸ List.mem_cons_self c cs)
    have hcne : ¬ c = '-' := (isDigitCh_spec hcdig).1
    rw [harr, hcons, List.cons_append]
    simp only [parseNumber]
    rw [if_neg hcne, ← List.cons_append, ← hcons,
      parseNumberCore_float false m.natAbs e he rest hsafe]
    have hsign : intOfSign false m.natAbs = m := by
      have h1 : intOfSign false m.natAbs = (m.natAbs : Int) := rfl
      rw [h1]; omega
    rw [hsign]

theorem scanString_append (s : List Char) (rest : List Char)
    (h : ∀ c ∈ s, ¬ c = '"') :
    scanString (s ++ '"' :: rest) = some (s, rest) := by
  induction s with
  | nil =>
    rw [List.nil_append, scanString, if_pos rfl]
  | cons c cs ih =>
    rw [List.cons_append, scanString,
      if_neg (h c (List.mem_cons_self c cs)),
      ih (fun c' hc' => h c' (List.mem_cons_of_mem c hc'))]

theorem strOk_no_quote {s : List Char} (h : strOk s = true) :
    ∀ c ∈ s, ¬ c = '"' := by
  intro c hc
  simp only [strOk, List.all_eq_true] at h
  have hch := h c hc
  simp only [strOkCh, Bool.and_eq_true, decide_eq_true_eq] at hch
  exact hch.1.1

theorem wfMembers_cons {k : List Char} {v : JVal} {ms : JMembers}
    (h : wfMembers (.cons k v ms) = true) :
    strOk k = true ∧ wfVal v = true ∧ wfMembers ms = true := by
  simp only [wfMembers, Bool.and_eq_true] at h
  exact ⟨h.1.1, h.1.2, h.2⟩

theorem needV_pos (v : JVal) : 1 ≤ needV v := by
  cases v <;> simp [needV]

theorem needV_memVals (ms : JMembers) :
    ∀ v' ∈ memVals ms, needV v' ≤ needM ms := by
  cases ms with
  | nil => intro v' h; simp [memVals] at h
  | cons k v ms2 =>
    intro v' h
    simp only [memVals, List.mem_cons] at h
    rcases h with rfl | h
    · simp [needM]
    · have := needV_memVals ms2 v' h
      simp only [needM]
      omega

theorem wf_memVals (ms : JMembers) (h : wfMembers ms = true) :
    ∀ v' ∈ memVals ms, wfVal v' = true := by
  cases ms with
  | nil => intro v' hv; simp [memVals] at hv
  | cons k v ms2 =>
    intro v' hv
    simp only [memVals, List.mem_cons] at hv
    rcases hv with rfl | hv
    · exact (wfMembers_cons h).2.1
    · exact wf_memVals ms2 (wfMembers_cons h).2.2 v' hv

theorem parseVal_ws (fuel : Nat) (s : List Char) :
    parseVal (fuel + 1) (' ' :: s) = parseVal (fuel + 1) s := by
  simp only [parseVal]
  have h : skipWs (' ' :: s) = skipWs s := by
    rw [skipWs]; rfl
  rw [h]

theorem parseMembersWith_ws (pv : List Char → Option (JVal × List Char))
    (mf : Nat) (s : List Char) :
    parseMembersWith pv (mf + 1) (' ' :: s) = parseMembersWith pv (mf + 1) s := by
  simp only [parseMembersWith]
  have h : skipWs (' ' :: s) = skipWs s := by
    rw [skipWs]; rfl
  rw [h]

theorem parseMembersWith_dump (pv : List Char → Option (JVal × List Char))
    (ms : JMembers) :
    ∀ (k : List Char) (v : JVal) (mf : Nat) (rest : List Char),
      wfMembers (.cons k v ms) = true →
      needM (.cons k v ms) ≤ mf →
      (∀ v' ∈ memVals (.cons k v ms), ∀ rest',
        numSafe rest' = true →
        pv (' ' :: (dumpVal v' ++ rest')) = some (v', rest')) →
      parseMembersWith pv mf (dumpMembers (.cons k v ms) ++ ('}' :: rest)) =
        some (.cons k v ms, rest) := by
  cases ms with
  | nil =>
    intro k v mf rest hwf hmf hpv
    obtain ⟨hk, hv, -⟩ := wfMembers_cons hwf
    rcases mf with _ | mf
    · exfalso
      rw [needM] at hmf
      have h := Nat.max_le.mp hmf
      omega
    have harr : dumpMembers (.cons k v .nil) ++ ('}' :: rest) =
        '"' :: (k ++ ('"' :: (':' :: (' ' :: (dumpVal v ++ ('}' :: rest)))))) := by
      simp [dumpMembers, List.append_assoc]
    have h1 : skipWs
        ('"' :: (k ++ ('"' :: (':' :: (' ' :: (dumpVal v ++ ('}' :: rest))))))) =
        '"' :: (k ++ ('"' :: (':' :: (' ' :: (dumpVal v ++ ('}' :: rest)))))) :=
      skipWs_cons _ (by decide)
    have h2 := scanString_append k
      (':' :: (' ' :: (dumpVal v ++ ('}' :: rest)))) (strOk_no_quote hk)
    have h3 : skipWs (':' :: (' ' :: (dumpVal v ++ ('}' :: rest)))) =
        ':' :: (' ' :: (dumpVal v ++ ('}' :: rest))) :=
      skipWs_cons _ (by decide)
    have h4 := hpv v (by simp [memVals]) ('}' :: rest) rfl
    have h5 : skipWs ('}' :: rest) = '}' :: rest := skipWs_cons _ (by decide)
    rw [harr, parseMembersWith, h1]
    simp only [h2, h3, h4, h5, eq_self_iff_true, if_true, if_false,
      (show ¬ (('}' : Char) = ',') by decide)]
  | cons k2 v2 ms2 =>
    intro k v mf rest hwf hmf hpv
    obtain ⟨hk, hv, hwf2⟩ := wfMembers_cons hwf
    have hneed2 : 1 ≤ needM (.cons k2 v2 ms2) := by
      have h := needV_pos v2
      rw [needM]
      omega
    rcases mf with _ | mf
    · exfalso
      rw [needM] at hmf
      have h := Nat.max_le.mp hmf
      omega
    have hmf2 : needM (.cons k2 v2 ms2) ≤ mf := by
      rw [needM] at hmf
      have h := Nat.max_le.mp hmf
      omega
    rcases mf with _ | m1
    · exfalso; omega
    have harr : dumpMembers (.cons k v (.cons k2 v2 ms2)) ++ ('}' :: rest) =
        '"' :: (k ++ ('"' :: (':' :: (' ' :: (dumpVal v ++
          (',' :: (' ' :: (dumpMembers (.cons k2 v2 ms2) ++ ('}' :: rest))))))))) := by
      simp [dumpMembers, List.append_assoc]
    have h1 : skipWs ('"' :: (k ++ ('"' :: (':' :: (' ' :: (dumpVal v ++
          (',' :: (' ' :: (dumpMembers (.cons k2 v2 ms2) ++ ('}' :: rest)))))))))) =
        '"' :: (k ++ ('"' :: (':' :: (' ' :: (dumpVal v ++
          (',' :: (' ' :: (dumpMembers (.cons k2 v2 ms2) ++ ('}' :: rest))))))))) :=
      skipWs_cons _ (by decide)
    have h2 := scanString_append k
      (':' :: (' ' :: (dumpVal v ++ (',' :: (' ' ::
        (dumpMembers (.cons k2 v2 ms2) ++ ('}' :: rest)))))))
      (strOk_no_quote hk)
    have h3 : skipWs (':' :: (' ' :: (dumpVal v ++ (',' :: (' ' ::
        (dumpMembers (.cons k2 v2 ms2) ++ ('}' :: rest))))))) =
        ':' :: (' ' :: (dumpVal v ++ (',' :: (' ' ::
        (dumpMembers (.cons k2 v2 ms2) ++ ('}' :: rest)))))) :=
      skipWs_cons _ (by decide)
    have h4 := hpv v (by simp [memVals])
      (',' :: (' ' :: (dumpMembers (.cons k2 v2 ms2) ++ ('}' :: rest)))) rfl
    have h5 : skipWs (',' :: (' ' ::
        (dumpMembers (.cons k2 v2 ms2) ++ ('}' :: rest)))) =
        ',' :: (' ' :: (dumpMembers (.cons k2 v2 ms2) ++ ('}' :: rest))) :=
      skipWs_cons _ (by decide)
    have hws := parseMembersWith_ws pv m1
      (dumpMembers (.cons k2 v2 ms2) ++ ('}' :: rest))
    have hrec := parseMembersWith_dump pv ms2 k2 v2 (m1 + 1) rest hwf2 hmf2
      (fun v' hv' rest' hsafe' =>
        hpv v' (by simp only [memVals, List.mem_cons] at hv' ⊢; tauto) rest' hsafe')
    have htail : parseMembersWith pv (m1 + 1)
        (' ' :: (dumpMembers (.cons k2 v2 ms2) ++ ('}' :: rest))) =
        some (.cons k2 v2 ms2, rest) := by rw [hws, hrec]
    rw [harr, parseMembersWith, h1]
    simp only [h2, h3, h4, h5, htail, eq_self_iff_true, if_true, if_false,
      (show ¬ ((',' : Char) = '}') by decide)]

theorem parseVal_number (fuel : Nat) (c : Char) (t : List Char)
    (hws : isWsCh c = false) (hq : ¬ c = '"') (hb : ¬ c = '{') :
    parseVal (fuel + 1) (c :: t) = parseNumber (c :: t) := by
  rw [parseVal, skipWs_cons _ hws]
  simp only [hq, hb, if_false]

theorem dump_number_head (l rest : List Char) (hne : l ≠ [])
    (hhead : ∀ c cs, l = c :: cs →
      isWsCh c = false ∧ ¬ c = '"' ∧ ¬ c = '{') (fuel : Nat) :
    parseVal (fuel + 1) (l ++ rest) = parseNumber (l ++ rest) := by
  obtain ⟨c, cs, hcons⟩ := List.exists_cons_of_ne_nil hne
  obtain ⟨hws, hq, hb⟩ := hhead c cs hcons
  rw [hcons, List.cons_append, parseVal_number fuel c (cs ++ rest) hws hq hb]

theorem dumpInt_ne_nil (m : Int) : dumpInt m ≠ [] := by
  rw [dumpInt]
  split
  · simp
  · exact natDigits_ne_nil m.natAbs

theorem dumpInt_head (m : Int) : ∀ c cs, dumpInt m = c :: cs →
    isWsCh c = false ∧ ¬ c = '"' ∧ ¬ c = '{' := by
  intro c cs h
  by_cases hm : m < 0
  · rw [dumpInt, if_pos hm] at h
    injection h with h1 _
    rw [← h1]
    refine ⟨by decide, by decide, by decide⟩
  · rw [dumpInt, if_neg hm] at h
    have hmem : c ∈ natDigits m.natAbs := h ▸ List.mem_cons_self c cs
    have hs := isDigitCh_spec (natDigits_digits _ c hmem)
    exact ⟨hs.2.2.2.2.2.2.2, hs.2.2.1, hs.2.2.2.1⟩

theorem dumpFloat_ne_nil (m : Int) (e : Nat) : dumpFloat m e ≠ [] := by
  rw [dumpFloat]
  intro hcon
  rcases List.append_eq_nil.mp hcon with ⟨-, h2⟩
  simp at h2

theorem dumpFloat_head (m : Int) (e : Nat) : ∀ c cs, dumpFloat m e = c :: cs →
    isWsCh c = false ∧ ¬ c = '"' ∧ ¬ c = '{' := by
  intro c cs h
  by_cases hm : m < 0
  · rw [dumpFloat, if_pos hm] at h
    injection h with h1 _
    rw [← h1]
    refine ⟨by decide, by decide, by decide⟩
  · rw [dumpFloat, if_neg hm, List.nil_append] at h
    obtain ⟨c2, cs2, hcons⟩ := List.exists_cons_of_ne_nil
      (natDigits_ne_nil (m.natAbs / 10 ^ e))
    rw [hcons, List.cons_append] at h
    injection h with h1 _
    have hmem : c2 ∈ natDigits (m.natAbs / 10 ^ e) :=
      hcons ▸ List.mem_cons_self c2 cs2
    have hs := isDigitCh_spec (natDigits_digits _ c2 hmem)
    rw [← h1]
    exact ⟨hs.2.2.2.2.2.2.2, hs.2.2.1, hs.2.2.2.1⟩

theorem parseVal_dump_bound : ∀ (bound : Nat) (v : JVal), needV v ≤ bound →
    wfVal v = true → ∀ (fuel : Nat) (rest : List Char), needV v ≤ fuel →
    numSafe rest = true →
    parseVal fuel (dumpVal v ++ rest) = some (v, rest) := by
  intro bound
  induction bound using Nat.strong_induction_on with
  | _ bound ih =>
    intro v hbound hwf fuel rest hfuel hsafe
    have hpos := needV_pos v
    rcases fuel with _ | fuel
    · omega
    cases v with
    | jint m =>
      have hd : dumpVal (.jint m) = dumpInt m := by rw [dumpVal]
      rw [hd, dump_number_head (dumpInt m) rest (dumpInt_ne_nil m)
        (dumpInt_head m) fuel, parseNumber_dumpInt m rest hsafe]
    | jnum m e =>
      have he : 1 ≤ e := by simpa [wfVal] using hwf
      have hd : dumpVal (.jnum m e) = dumpFloat m e := by rw [dumpVal]
      rw [hd, dump_number_head (dumpFloat m e) rest (dumpFloat_ne_nil m e)
        (dumpFloat_head m e) fuel, parseNumber_dumpFloat m e he rest hsafe]
    | jstr s =>
      have hstr : strOk s = true := by simpa [wfVal] using hwf
      have harr : dumpVal (.jstr s) ++ rest = '"' :: (s ++ ('"' :: rest)) := by
        rw [dumpVal]
        simp [List.append_assoc]
      rw [harr, parseVal, skipWs_cons _ (by decide)]
      simp only [eq_self_iff_true, if_true,
        scanString_append s rest (strOk_no_quote hstr)]
    | jobj ms =>
      cases ms with
      | nil =>
        have harr : dumpVal (.jobj .nil) ++ rest = '{' :: ('}' :: rest) := by
          rw [dumpVal, dumpMembers]
          simp
        have hsw : skipWs ('}' :: rest) = '}' :: rest := skipWs_cons _ (by decide)
        rw [harr, parseVal, skipWs_cons _ (by decide)]
        simp only [(show ¬ (('{' : Char) = '"') by decide), if_false,
          eq_self_iff_true, if_true, hsw]
      | cons k2 v2 ms2 =>
        have hwfm : wfMembers (.cons k2 v2 ms2) = true := by
          simpa [wfVal] using hwf
        have hneedm : needM (.cons k2 v2 ms2) ≤ fuel := by
          have h1 : needV (.jobj (.cons k2 v2 ms2)) =
              1 + needM (.cons k2 v2 ms2) := by rw [needV]
          omega
        have hpv : ∀ v' ∈ memVals (.cons k2 v2 ms2), ∀ rest',
            numSafe rest' = true →
            parseVal fuel (' ' :: (dumpVal v' ++ rest')) = some (v', rest') := by
          intro v' hv' rest' hs'
          have hne : needV v' ≤ needM (.cons k2 v2 ms2) :=
            needV_memVals _ v' hv'
          have hnm : 1 ≤ needM (.cons k2 v2 ms2) :=
            le_trans (needV_pos v') hne
          rcases fuel with _ | f1
          · omega
          rw [parseVal_ws]
          have hlt : needV v' < bound := by
            have h1 : needV (.jobj (.cons k2 v2 ms2)) =
                1 + needM (.cons k2 v2 ms2) := by rw [needV]
            omega
          exact ih (needV v') hlt v' le_rfl
            (wf_memVals _ hwfm v' hv') (f1 + 1) rest' (by omega) hs'
        have harr : dumpVal (.jobj (.cons k2 v2 ms2)) ++ rest =
            '{' :: (dumpMembers (.cons k2 v2 ms2) ++ ('}' :: rest)) := by
          rw [dumpVal]
          simp [List.append_assoc]
        have hdm : ∃ X, dumpMembers (.cons k2 v2 ms2) = '"' :: X := by
          cases ms2 <;> (rw [dumpMembers]; exact ⟨_, rfl⟩)
        obtain ⟨X, hX⟩ := hdm
        have hsw2 : skipWs (dumpMembers (.cons k2 v2 ms2) ++ ('}' :: rest)) =
            dumpMembers (.cons k2 v2 ms2) ++ ('}' :: rest) := by
          rw [hX, List.cons_append]
          exact skipWs_cons _ (by decide)
        have hmem := parseMembersWith_dump (parseVal fuel) ms2 k2 v2 fuel rest
          hwfm hneedm hpv
        have hhd : ∀ Y, dumpMembers (.cons k2 v2 ms2) ++ ('}' :: rest) =
            Y → Y ≠ [] := by
          intro Y hY
          rw [← hY, hX]
          simp
        rw [harr, parseVal, skipWs_cons _ (by decide)]
        simp only [(show ¬ (('{' : Char) = '"') by decide), if_false,
          eq_self_iff_true, if_true, hsw2]
        rw [hX, List.cons_append]
        simp only [(show ¬ (('"' : Char) = '}') by decide), if_false]
        rw [← List.cons_append, ← hX, hmem]

theorem parseVal_dump (v : JVal) (fuel : Nat) (rest : List Char)
    (hwf : wfVal v = true) (hfuel : needV v ≤ fuel)
    (hsafe : numSafe rest = true) :
    parseVal fuel (dumpVal v ++ rest) = some (v, rest) :=
  parseVal_dump_bound (needV v) v le_rfl hwf fuel rest hfuel hsafe

theorem needM_le_length (ms : JMembers)
    (hval : ∀ v' ∈ memVals ms, needV v' ≤ (dumpVal v').length) :
    needM ms ≤ (dumpMembers ms).length + 1 := by
  cases ms with
  | nil =>
    rw [needM, dumpMembers]
    simp
  | cons k v ms2 =>
    have hv : needV v ≤ (dumpVal v).length :=
      hval v (by simp [memVals])
    have hrec : needM ms2 ≤ (dumpMembers ms2).length + 1 :=
      needM_le_length ms2 (fun v' hv' =>
        hval v' (by simp only [memVals, List.mem_cons]; tauto))
    rw [needM]
    cases ms2 with
    | nil =>
      rw [dumpMembers]
      simp only [List.length_cons, List.length_append]
      rw [needM]
      omega
    | cons k3 v3 ms3 =>
      rw [dumpMembers]
      simp only [List.length_cons, List.length_append]
      omega

theorem needV_le_length : ∀ (bound : Nat) (v : JVal), needV v ≤ bound →
    needV v ≤ (dumpVal v).length := by
  intro bound
  induction bound using Nat.strong_induction_on with
  | _ bound ih =>
    intro v hbound
    cases v with
    | jint m =>
      rw [needV]
      have := List.length_pos.mpr (dumpInt_ne_nil m)
      rw [dumpVal]
      omega
    | jnum m e =>
      rw [needV]
      have := List.length_pos.mpr (dumpFloat_ne_nil m e)
      rw [dumpVal]
      omega
    | jstr s =>
      rw [needV, dumpVal]
      simp
    | jobj ms =>
      have h1 : needV (.jobj ms) = 1 + needM ms := by rw [needV]
      have hval : ∀ v' ∈ memVals ms, needV v' ≤ (dumpVal v').length := by
        intro v' hv'
        have hle : needV v' ≤ needM ms := needV_memVals ms v' hv'
        exact ih (needV v') (by omega) v' le_rfl
      have h2 := needM_le_length ms hval
      rw [dumpVal]
      simp only [List.length_cons, List.length_append]
      omega

theorem jsonLoads_dumps (v : JVal) (hwf : wfVal v = true) :
    jsonLoads (jsonDumps v) = some v := by
  rw [jsonDumps, jsonLoads]
  have hfuel : needV v ≤ (dumpVal v).length + 1 := by
    have := needV_le_length (needV v) v le_rfl
    omega
  have h := parseVal_dump v ((dumpVal v).length + 1) [] hwf hfuel rfl
  rw [List.append_nil] at h
  rw [h]
  rfl

theorem decodePayload_encodePayload (v : JVal) (hwf : wfVal v = true) :
    decodePayload (encodePayload v) = some v := by
  rw [encodePayload, decodePayload, List.map_map]
  have hmap : ((fun b => Char.ofNat b) ∘ Char.toNat) = id :=
    funext fun c => Char.ofNat_toNat c
  rw [hmap, List.map_id]
  exact jsonLoads_dumps v hwf

theorem bandsShape_wf : ∀ (keys : List (List Char)) (ms : JMembers),
    (∀ k ∈ keys, strOk k = true) → bandsShape ms keys = true →
    wfMembers ms = true := by
  intro keys
  induction keys with
  | nil =>
    intro ms hkeys h
    cases ms with
    | nil => rw [wfMembers]
    | cons k v ms2 => simp [bandsShape] at h
  | cons key keys ih =>
    intro ms hkeys h
    cases ms with
    | nil => simp [bandsShape] at h
    | cons k v ms2 =>
      cases v with
      | jnum m e =>
        simp only [bandsShape, Bool.and_eq_true, beq_iff_eq,
          decide_eq_true_eq] at h
        obtain ⟨⟨hkey, he⟩, hsh⟩ := h
        rw [wfMembers]
        simp only [Bool.and_eq_true]
        refine ⟨⟨?_, ?_⟩, ?_⟩
        · rw [hkey]
          exact hkeys key (by simp)
        · rw [wfVal]
          simpa using he
        · exact ih ms2 (fun k2 hk2 => hkeys k2 (by simp [hk2])) hsh
      | jint m => simp [bandsShape] at h
      | jstr s => simp [bandsShape] at h
      | jobj ms3 => simp [bandsShape] at h

/-! ## Claim theorems -/

theorem read_event_at_no_new {Ev : Type} (avail : Bool)
    (deserialize : List Nat → Option Ev) (r1 r2 r3 : List Nat) (last : Nat)
    (h : headerSeq r1 = 0 ∨ headerSeq r1 ≤ last) :
    read_event_at avail deserialize r1 r2 r3 last = (none, last) := by
  unfold read_event_at
  split_ifs <;> try rfl

theorem read_event_stale {Ev : Type} (avail : Bool)
    (d : List Nat → Option Ev) (r : List Nat) (last : Nat)
    (h : headerSeq r ≤ last) :
    read_event avail d r last = (none, last) := by
  rw [read_event]
  exact read_event_at_no_new avail d r r r last (Or.inr h)

/-- C1: if the sequence field re-read after the payload read differs from
the sequence read before the payload, the poll returns nothing — no
(possibly torn) event is surfaced — and the subscriber's last-consumed
sequence is left unchanged. -/
theorem c1_torn_read_returns_nothing {Ev : Type} (avail : Bool)
    (deserialize : List Nat → Option Ev) (r1 r2 r3 : List Nat) (last : Nat)
    (h : headerSeq r3 ≠ headerSeq r1) :
    read_event_at avail deserialize r1 r2 r3 last = (none, last) := by
  unfold read_event_at
  split_ifs with h1 h2 h3 h4 h5 h6 <;> try rfl
  push_neg at h6
  exact absurd h6.symm h

theorem c1_witness :
    headerSeq (packHeader 2 5) ≠ headerSeq (packHeader 1 5) ∧
    read_event_at true (fun _ => (some 0 : Option Nat))
      (packHeader 1 5) [] (packHeader 2 5) 0 = (none, 0) :=
  ⟨by decide, c1_torn_read_returns_nothing true (fun _ => some 0)
    (packHeader 1 5) [] (packHeader 2 5) 0 (by decide)⟩

/-- C2: a poll returns nothing when the header sequence is 0 or not
strictly greater than the subscriber's last-consumed sequence; a returned
frame's header sequence strictly exceeds the previous cursor and becomes
the new cursor; hence the header sequences of the frames a single
subscriber returns over any run of polls are strictly increasing. -/
theorem c2_subscriber_sequences_strictly_increase {Ev : Type} :
    (∀ (avail : Bool) (deserialize : List Nat → Option Ev)
        (r1 r2 r3 : List Nat) (last : Nat),
      headerSeq r1 = 0 ∨ headerSeq r1 ≤ last →
      read_event_at avail deserialize r1 r2 r3 last = (none, last)) ∧
    (∀ (avail : Bool) (deserialize : List Nat → Option Ev)
        (r1 r2 r3 : List Nat) (last : Nat) (ev : Ev) (last' : Nat),
      read_event_at avail deserialize r1 r2 r3 last = (some ev, last') →
      last < headerSeq r1 ∧ last' = headerSeq r1) ∧
    (∀ (avail : Bool) (deserialize : List Nat → Option Ev)
        (rs : List (List Nat)) (last : Nat),
      (pollSeqs avail deserialize rs last).Pairwise (· < ·)) := by
  refine ⟨?_, ?_, ?_⟩
  · intro avail d r1 r2 r3 last h
    exact read_event_at_no_new avail d r1 r2 r3 last h
  · intro avail d r1 r2 r3 last ev last' h
    rcases read_event_at_cases avail d r1 r2 r3 last with hc | ⟨ev2, hc, hlt, -⟩
    · rw [h] at hc
      simp at hc
    · rw [h] at hc
      obtain ⟨-, h2⟩ := Prod.mk.injEq _ _ _ _ ▸ hc
      exact ⟨hlt, h2⟩
  · intro avail d rs
    induction rs with
    | nil => intro last; simp [pollSeqs]
    | cons r rs ih =>
      intro last
      rcases read_event_at_cases avail d r r r last with hc | ⟨ev, hc, hlt, -⟩ <;>
        simp only [pollSeqs, read_event, hc]
      · exact ih last
      · exact List.Pairwise.cons
          (fun x hx => pollSeqs_gt avail d rs (headerSeq r) x hx)
          (ih (headerSeq r))

theorem c2_witness :
    read_event_at true (fun _ => (some 0 : Option Nat))
      (packHeader 0 5) [] [] 7 = (none, 7) :=
  (@c2_subscriber_sequences_strictly_increase Nat).1 true
    (fun _ => some 0) (packHeader 0 5) [] [] 7 (Or.inl (by decide))

/-- C4: `publish`/`write_event` returns `False` and leaves the writer's
state (sequence counter and region) unchanged when the region is
unavailable or serialization failed; the embedding is a total function,
matching the method's catch-all `except` (it never raises). -/
theorem c4_publish_failure_returns_false (s : ShmWriter)
    (serialized : Option (List Nat))
    (h : s.available = false ∨ serialized = none) :
    write_event s serialized = (false, s) := by
  unfold write_event
  rcases h with h | h
  · rw [if_pos h]
  · rcases serialized with _ | d
    · split_ifs with h1 <;> rfl
    · exact absurd h (by simp)

theorem c4_witness :
    write_event ⟨false, 3, [1, 2]⟩ (some [9]) = (false, ⟨false, 3, [1, 2]⟩) ∧
    write_event ⟨true, 3, [1, 2]⟩ none = (false, ⟨true, 3, [1, 2]⟩) :=
  ⟨c4_publish_failure_returns_false _ _ (Or.inl rfl),
   c4_publish_failure_returns_false _ _ (Or.inr rfl)⟩

/-- C9: a poll whose header length field is 0 or exceeds
`MAX_PAYLOAD_SIZE` returns nothing with the cursor untouched (the early
return happens before the payload is read); conversely any successful
poll validated `length ≤ MAX_PAYLOAD_SIZE`, so the payload read of
`length` bytes at offset `HEADER_SIZE` stays within the fixed
`SHM_SIZE` region. -/
theorem c9_reader_respects_length_bounds {Ev : Type} :
    (∀ (avail : Bool) (deserialize : List Nat → Option Ev)
        (r1 r2 r3 : List Nat) (last : Nat),
      headerLen r1 = 0 ∨ headerLen r1 > MAX_PAYLOAD_SIZE →
      read_event_at avail deserialize r1 r2 r3 last = (none, last)) ∧
    (∀ (avail : Bool) (deserialize : List Nat → Option Ev)
        (r1 r2 r3 : List Nat) (last : Nat) (ev : Ev) (last' : Nat),
      read_event_at avail deserialize r1 r2 r3 last = (some ev, last') →
      headerLen r1 ≤ MAX_PAYLOAD_SIZE ∧
      HEADER_SIZE + headerLen r1 ≤ SHM_SIZE) := by
  constructor
  · intro avail d r1 r2 r3 last h
    unfold read_event_at
    split_ifs <;> try rfl
  · intro avail d r1 r2 r3 last ev last' h
    rcases read_event_at_cases avail d r1 r2 r3 last
      with hc | ⟨ev2, hc, -, -, -, hlen, -⟩
    · rw [h] at hc
      simp at hc
    · refine ⟨hlen, ?_⟩
      have h1 : HEADER_SIZE = 20 := rfl
      have h2 : SHM_SIZE = 4096 := rfl
      have h3 : MAX_PAYLOAD_SIZE = 4076 := rfl
      omega

theorem c9_witness :
    read_event_at true (fun _ => (some 0 : Option Nat))
      (packHeader 9 0) [] [] 0 = (none, 0) :=
  (@c9_reader_respects_length_bounds Nat).1 true
    (fun _ => some 0) (packHeader 9 0) [] [] 0 (Or.inl (by decide))

/-- C10: the query client's per-band getter (and total-energy getter)
returns the float `0.0` not only when the daemon is absent but whenever
the region holds no frame with a sequence strictly greater than the
client's last-consumed sequence — each query polls for fresh data rather
than returning the last-known bands, so a second query between two
publishes yields `0.0` even though a valid event was previously read
(and cached in `_last_event`). -/
theorem c10_query_returns_zero_without_new_frame (c : ClientState)
    (r : List Nat) (name : List Char)
    (h : c.shm_available = false ∨ headerSeq r ≤ c.shm_last) :
    get_band c r name = .ok (float0, c) ∧
    get_total_energy c r = .ok (float0, c) := by
  have hread : read_event c.shm_available decodePayload r c.shm_last =
      (none, c.shm_last) := by
    rcases h with h | h
    · rw [read_event, h]
      exact read_event_at_unavailable _ _ _ _ _
    · exact read_event_stale _ _ _ _ h
  have hbands : get_bands c r = .ok (none, c) := by
    rw [get_bands, hread]
  constructor
  · rw [get_band, hbands]
  · rw [get_total_energy, hbands]

theorem c10_witness :
    get_band ⟨true, 5, some (.jint 1)⟩ [] ("bass".toList) =
      .ok (float0, ⟨true, 5, some (.jint 1)⟩) ∧
    get_total_energy ⟨true, 5, some (.jint 1)⟩ [] =
      .ok (float0, ⟨true, 5, some (.jint 1)⟩) :=
  c10_query_returns_zero_without_new_frame ⟨true, 5, some (.jint 1)⟩ []
    ("bass".toList) (Or.inr (by decide))

/-- C7: when the serialized payload exceeds `MAX_PAYLOAD_SIZE`
(region size minus header size, 4096 − 20 bytes), `write_event`
truncates it to exactly that capacity, still commits the frame — the
header's length field equals the capacity and the region's payload area
holds the truncated bytes — increments the sequence, and returns `True`
rather than failing. -/
theorem c7_publish_truncates_oversized (s : ShmWriter) (d : List Nat)
    (hav : s.available = true) (hreg : s.region.length = SHM_SIZE)
    (hlen : d.length > MAX_PAYLOAD_SIZE) :
    ∃ s', write_event s (some d) = (true, s') ∧
      s'.last_sequence = s.last_sequence + 1 ∧
      headerLen s'.region = MAX_PAYLOAD_SIZE ∧
      s'.region.drop HEADER_SIZE = d.take MAX_PAYLOAD_SIZE := by
  have hdata : (if d.length > MAX_PAYLOAD_SIZE
      then d.take MAX_PAYLOAD_SIZE else d) = d.take MAX_PAYLOAD_SIZE :=
    if_pos hlen
  have hlen2 : (d.take MAX_PAYLOAD_SIZE).length = MAX_PAYLOAD_SIZE := by
    rw [List.length_take]
    have h3 : MAX_PAYLOAD_SIZE = 4076 := rfl
    omega
  have htake20 : (s.region.take HEADER_SIZE).length = HEADER_SIZE := by
    rw [List.length_take, hreg]
    rfl
  have hw1 : writeBytes s.region HEADER_SIZE (d.take MAX_PAYLOAD_SIZE) =
      s.region.take HEADER_SIZE ++ d.take MAX_PAYLOAD_SIZE := by
    rw [writeBytes, hlen2]
    have hdrop : s.region.drop (HEADER_SIZE + MAX_PAYLOAD_SIZE) = [] := by
      rw [List.drop_eq_nil_iff, hreg]
      decide
    rw [hdrop, List.append_nil]
  have hw2 : writeBytes
      (s.region.take HEADER_SIZE ++ d.take MAX_PAYLOAD_SIZE) 0
      (packHeader (s.last_sequence + 1) MAX_PAYLOAD_SIZE) =
      packHeader (s.last_sequence + 1) MAX_PAYLOAD_SIZE ++
        d.take MAX_PAYLOAD_SIZE := by
    rw [writeBytes, List.take_zero, List.nil_append, packHeader_length,
      Nat.zero_add, List.drop_left' htake20]
  unfold write_event
  rw [if_neg (by rw [hav]; simp)]
  simp only [hdata, hlen2, hw1, hw2]
  refine ⟨_, rfl, rfl, ?_, ?_⟩
  · rw [headerLen_pack]
    decide
  · exact List.drop_left' (packHeader_length _ _)

theorem c7_witness :
    ∃ s', write_event ⟨true, 0, List.replicate 4096 0⟩
        (some (List.replicate 4077 1)) = (true, s') ∧
      s'.last_sequence = 0 + 1 ∧
      headerLen s'.region = MAX_PAYLOAD_SIZE ∧
      s'.region.drop HEADER_SIZE = (List.replicate 4077 1).take MAX_PAYLOAD_SIZE :=
  c7_publish_truncates_oversized ⟨true, 0, List.replicate 4096 0⟩
    (List.replicate 4077 1) rfl (by rw [List.length_replicate]; rfl)
    (by rw [List.length_replicate]; decide)

theorem clamp01_bounds (x : ℚ) : 0 ≤ clamp01 x ∧ clamp01 x ≤ 1 := by
  unfold clamp01
  constructor
  · exact le_max_left 0 _
  · exact max_le (by norm_num) (min_le_left 1 x)

theorem normalizeBand_bounds (log10 : ℚ → ℚ) (energy : ℚ) :
    0 ≤ normalizeBand log10 energy ∧ normalizeBand log10 energy ≤ 1 := by
  unfold normalizeBand
  split_ifs
  · exact clamp01_bounds _
  · norm_num

theorem normalizeTotal_bounds (log10 : ℚ → ℚ) (energy : ℚ) :
    0 ≤ normalizeTotal log10 energy ∧ normalizeTotal log10 energy ≤ 1 := by
  unfold normalizeTotal
  split_ifs
  · exact clamp01_bounds _
  · norm_num

/-- C5: every one of the seven per-band energies and the total energy the
analyzer emits lies in `[0, 1]`, no matter the input spectrum (zero-energy
frames included); a band whose in-range magnitude sum is zero gets energy
exactly `0`, and a positive sum gets the `log10` of the sum rescaled by
the fixed floor/range constants (distinct constants for individual bands
and for the total) clamped into `[0, 1]`. -/
theorem c5_band_energies_in_unit_interval (log10 : ℚ → ℚ)
    (spectrum : List (ℚ × ℚ)) :
    (∀ p ∈ get_frequency_bands log10 spectrum, 0 ≤ p.2 ∧ p.2 ≤ 1) ∧
    (∀ name lo hi, (name, lo, hi) ∈ FREQUENCY_BANDS →
      (bandSum spectrum lo hi = 0 →
        lookupD (get_frequency_bands log10 spectrum) name 0 = 0) ∧
      (0 < bandSum spectrum lo hi →
        lookupD (get_frequency_bands log10 spectrum) name 0 =
          clamp01 ((log10 (bandSum spectrum lo hi) - LOG_ENERGY_MIN_BAND) /
            LOG_ENERGY_RANGE_BAND))) ∧
    ((bandSum spectrum AUDIBLE_FREQ_MIN AUDIBLE_FREQ_MAX = 0 →
        lookupD (get_frequency_bands log10 spectrum) "total" 0 = 0) ∧
     (0 < bandSum spectrum AUDIBLE_FREQ_MIN AUDIBLE_FREQ_MAX →
        lookupD (get_frequency_bands log10 spectrum) "total" 0 =
          clamp01 ((log10 (bandSum spectrum AUDIBLE_FREQ_MIN AUDIBLE_FREQ_MAX) -
            LOG_ENERGY_MIN_TOTAL) / LOG_ENERGY_RANGE_TOTAL))) := by
  refine ⟨?_, ?_, ?_⟩
  · intro p hp
    simp only [get_frequency_bands, FREQUENCY_BANDS, List.map_cons,
      List.map_nil, List.mem_append, List.mem_cons, List.not_mem_nil,
      or_false] at hp
    rcases hp with (hp | hp | hp | hp | hp | hp | hp) | hp
    · rw [hp]; exact normalizeBand_bounds _ _
    · rw [hp]; exact normalizeBand_bounds _ _
    · rw [hp]; exact normalizeBand_bounds _ _
    · rw [hp]; exact normalizeBand_bounds _ _
    · rw [hp]; exact normalizeBand_bounds _ _
    · rw [hp]; exact normalizeBand_bounds _ _
    · rw [hp]; exact normalizeBand_bounds _ _
    · rw [hp]; exact normalizeTotal_bounds _ _
  · intro name lo hi hmem
    simp only [FREQUENCY_BANDS, List.mem_cons, List.not_mem_nil,
      or_false] at hmem
    rcases hmem with h | h | h | h | h | h | h <;>
      simp only [Prod.mk.injEq] at h <;>
      obtain ⟨rfl, rfl, rfl⟩ := h <;>
      exact ⟨fun h0 => by
          simp [get_frequency_bands, FREQUENCY_BANDS, lookupD, List.find?,
            normalizeBand, h0],
        fun hpos => by
          simp [get_frequency_bands, FREQUENCY_BANDS, lookupD, List.find?,
            normalizeBand, hpos]⟩
  · exact ⟨fun h0 => by
        simp [get_frequency_bands, FREQUENCY_BANDS, lookupD, List.find?,
          normalizeTotal, h0],
      fun hpos => by
        simp [get_frequency_bands, FREQUENCY_BANDS, lookupD, List.find?,
          normalizeTotal, hpos]⟩

theorem c5_witness :
    lookupD (get_frequency_bands (fun _ => 0) []) "sub_bass" 0 = 0 :=
  ((c5_band_energies_in_unit_interval (fun _ => 0) []).2.1 "sub_bass" 20 60
    (by decide)).1 (by decide)

theorem pythonMaxBy_split (key : (String × ℚ) → ℚ) :
    ∀ (xs : List (String × ℚ)) (b : String × ℚ),
      ∃ pre post, b :: xs = pre ++ (pythonMaxBy key b xs) :: post ∧
        (∀ x ∈ pre, key x < key (pythonMaxBy key b xs)) ∧
        (∀ x ∈ post, key x ≤ key (pythonMaxBy key b xs)) := by
  intro xs
  induction xs with
  | nil =>
    intro b
    exact ⟨[], [], rfl, by simp, by simp⟩
  | cons x xs ih =>
    intro b
    by_cases hbx : key b < key x
    · obtain ⟨pre, post, heq, hpre, hpost⟩ := ih x
      rw [pythonMaxBy, if_pos hbx]
      refine ⟨b :: pre, post, ?_, ?_, hpost⟩
      · rw [List.cons_append, ← heq]
      · intro y hy
        rcases List.mem_cons.mp hy with rfl | hy
        · have hxle : key x ≤ key (pythonMaxBy key x xs) := by
            rcases pre with _ | ⟨p, pre2⟩
            · rw [List.nil_append] at heq
              injection heq with h1 _
              rw [← h1]
            · rw [List.cons_append] at heq
              injection heq with h1 _
              have hp := hpre p (by simp)
              rw [← h1] at hp
              exact le_of_lt hp
          exact lt_of_lt_of_le hbx hxle
        · exact hpre y hy
    · obtain ⟨pre, post, heq, hpre, hpost⟩ := ih b
      rw [pythonMaxBy, if_neg hbx]
      rcases pre with _ | ⟨p, pre2⟩
      · rw [List.nil_append] at heq
        injection heq with h1 h2
        refine ⟨[], x :: post, ?_, by simp, ?_⟩
        · rw [List.nil_append, ← h1, h2]
        · intro y hy
          rcases List.mem_cons.mp hy with rfl | hy
          · rw [← h1]
            exact le_of_not_lt hbx
          · exact hpost y hy
      · rw [List.cons_append] at heq
        injection heq with h1 h2
        refine ⟨b :: x :: pre2, post, ?_, ?_, hpost⟩
        · rw [List.cons_append, List.cons_append, ← h2]
        · intro y hy
          rcases List.mem_cons.mp hy with rfl | hy
          · have hp := hpre p (by simp)
            rw [← h1] at hp
            exact hp
          rcases List.mem_cons.mp hy with rfl | hy
          · have hp := hpre p (by simp)
            rw [← h1] at hp
            exact lt_of_le_of_lt (le_of_not_lt hbx) hp
          · exact hpre y (by simp [hy])

/-- C6: for every emitted event, the dominant band is the first band (in
the dict's iteration order) attaining the maximum among the seven named
bands with `total` excluded; the event's `frequency` is that band's fixed
representative center frequency from `BAND_CENTER_FREQUENCIES` (never an
arbitrary value), and its `amplitude` is the larger of `total` and the
dominant band's value. -/
theorem c6_dominant_band (log10 : ℚ → ℚ) (spectrum : List (ℚ × ℚ))
    (ev : List (String × PyVal))
    (h : send_event (get_frequency_bands log10 spectrum) = some ev) :
    ∃ pre dom post cf,
      (get_frequency_bands log10 spectrum).filter
          (fun p => !(p.1 == "total")) = pre ++ dom :: post ∧
      (∀ x ∈ pre, x.2 < dom.2) ∧
      (∀ x ∈ post, x.2 ≤ dom.2) ∧
      (dom.1, cf) ∈ BAND_CENTER_FREQUENCIES ∧
      pyLookup ev "frequency" = some (.pint cf) ∧
      pyLookup ev "amplitude" = some (.pnum
        (max (lookupD (get_frequency_bands log10 spectrum) "total" 0)
          dom.2)) := by
  have hfil : (get_frequency_bands log10 spectrum).filter
      (fun p => !(p.1 == "total")) =
      ("sub_bass", normalizeBand log10 (bandSum spectrum 20 60)) ::
      [("bass", normalizeBand log10 (bandSum spectrum 60 250)),
       ("low_mid", normalizeBand log10 (bandSum spectrum 250 500)),
       ("mid", normalizeBand log10 (bandSum spectrum 500 1000)),
       ("high_mid", normalizeBand log10 (bandSum spectrum 1000 2000)),
       ("treble", normalizeBand log10 (bandSum spectrum 2000 4000)),
       ("sparkle", normalizeBand log10 (bandSum spectrum 4000 8000))] := by
    simp [get_frequency_bands, FREQUENCY_BANDS, List.filter]
  simp only [send_event, hfil] at h
  split_ifs at h with hth
  have hev := Option.some.inj h
  rw [hfil]
  obtain ⟨pre, post, heq, hpre, hpost⟩ := pythonMaxBy_split Prod.snd
    [("bass", normalizeBand log10 (bandSum spectrum 60 250)),
     ("low_mid", normalizeBand log10 (bandSum spectrum 250 500)),
     ("mid", normalizeBand log10 (bandSum spectrum 500 1000)),
     ("high_mid", normalizeBand log10 (bandSum spectrum 1000 2000)),
     ("treble", normalizeBand log10 (bandSum spectrum 2000 4000)),
     ("sparkle", normalizeBand log10 (bandSum spectrum 4000 8000))]
    ("sub_bass", normalizeBand log10 (bandSum spectrum 20 60))
  have hdom : pythonMaxBy Prod.snd
      ("sub_bass", normalizeBand log10 (bandSum spectrum 20 60))
      [("bass", normalizeBand log10 (bandSum spectrum 60 250)),
       ("low_mid", normalizeBand log10 (bandSum spectrum 250 500)),
       ("mid", normalizeBand log10 (bandSum spectrum 500 1000)),
       ("high_mid", normalizeBand log10 (bandSum spectrum 1000 2000)),
       ("treble", normalizeBand log10 (bandSum spectrum 2000 4000)),
       ("sparkle", normalizeBand log10 (bandSum spectrum 4000 8000))] ∈
      ("sub_bass", normalizeBand log10 (bandSum spectrum 20 60)) ::
      [("bass", normalizeBand log10 (bandSum spectrum 60 250)),
       ("low_mid", normalizeBand log10 (bandSum spectrum 250 500)),
       ("mid", normalizeBand log10 (bandSum spectrum 500 1000)),
       ("high_mid", normalizeBand log10 (bandSum spectrum 1000 2000)),
       ("treble", normalizeBand log10 (bandSum spectrum 2000 4000)),
       ("sparkle", normalizeBand log10 (bandSum spectrum 4000 8000))] := by
    rw [heq]
    simp
  simp only [List.mem_cons, List.not_mem_nil, or_false] at hdom
  rcases hdom with hd | hd | hd | hd | hd | hd | hd
  · exact ⟨pre, _, post, 40, heq, hpre, hpost,
      (by rw [hd]; simp [BAND_CENTER_FREQUENCIES]),
      (by rw [← hev]; simp [pyLookup, List.find?]; rw [hd];
          simp [lookupD, List.find?, BAND_CENTER_FREQUENCIES]),
      (by rw [← hev]; simp [pyLookup, List.find?])⟩
  · exact ⟨pre, _, post, 150, heq, hpre, hpost,
      (by rw [hd]; simp [BAND_CENTER_FREQUENCIES]),
      (by rw [← hev]; simp [pyLookup, List.find?]; rw [hd];
          simp [lookupD, List.find?, BAND_CENTER_FREQUENCIES]),
      (by rw [← hev]; simp [pyLookup, List.find?])⟩
  · exact ⟨pre, _, post, 375, heq, hpre, hpost,
      (by rw [hd]; simp [BAND_CENTER_FREQUENCIES]),
      (by rw [← hev]; simp [pyLookup, List.find?]; rw [hd];
          simp [lookupD, List.find?, BAND_CENTER_FREQUENCIES]),
      (by rw [← hev]; simp [pyLookup, List.find?])⟩
  · exact ⟨pre, _, post, 750, heq, hpre, hpost,
      (by rw [hd]; simp [BAND_CENTER_FREQUENCIES]),
      (by rw [← hev]; simp [pyLookup, List.find?]; rw [hd];
          simp [lookupD, List.find?, BAND_CENTER_FREQUENCIES]),
      (by rw [← hev]; simp [pyLookup, List.find?])⟩
  · exact ⟨pre, _, post, 1500, heq, hpre, hpost,
      (by rw [hd]; simp [BAND_CENTER_FREQUENCIES]),
      (by rw [← hev]; simp [pyLookup, List.find?]; rw [hd];
          simp [lookupD, List.find?, BAND_CENTER_FREQUENCIES]),
      (by rw [← hev]; simp [pyLookup, List.find?])⟩
  · exact ⟨pre, _, post, 3000, heq, hpre, hpost,
      (by rw [hd]; simp [BAND_CENTER_FREQUENCIES]),
      (by rw [← hev]; simp [pyLookup, List.find?]; rw [hd];
          simp [lookupD, List.find?, BAND_CENTER_FREQUENCIES]),
      (by rw [← hev]; simp [pyLookup, List.find?])⟩
  · exact ⟨pre, _, post, 6000, heq, hpre, hpost,
      (by rw [hd]; simp [BAND_CENTER_FREQUENCIES]),
      (by rw [← hev]; simp [pyLookup, List.find?]; rw [hd];
          simp [lookupD, List.find?, BAND_CENTER_FREQUENCIES]),
      (by rw [← hev]; simp [pyLookup, List.find?])⟩

theorem c6_witness :
    ∃ pre dom post cf,
      (get_frequency_bands (fun _ => 13 / 2) [(30, 5)]).filter
          (fun p => !(p.1 == "total")) = pre ++ dom :: post ∧
      (∀ x ∈ pre, x.2 < dom.2) ∧
      (∀ x ∈ post, x.2 ≤ dom.2) ∧
      (dom.1, cf) ∈ BAND_CENTER_FREQUENCIES ∧
      pyLookup [("type", PyVal.pstr "audio"),
        ("bands", PyVal.pbands [("sub_bass", 1 / 2), ("bass", 0),
          ("low_mid", 0), ("mid", 0), ("high_mid", 0), ("treble", 0),
          ("sparkle", 0), ("total", 1 / 4)]),
        ("frequency", PyVal.pint 40), ("amplitude", PyVal.pnum (1 / 2))]
        "frequency" = some (.pint cf) ∧
      pyLookup [("type", PyVal.pstr "audio"),
        ("bands", PyVal.pbands [("sub_bass", 1 / 2), ("bass", 0),
          ("low_mid", 0), ("mid", 0), ("high_mid", 0), ("treble", 0),
          ("sparkle", 0), ("total", 1 / 4)]),
        ("frequency", PyVal.pint 40), ("amplitude", PyVal.pnum (1 / 2))]
        "amplitude" = some (.pnum
          (max (lookupD (get_frequency_bands (fun _ => 13 / 2) [(30, 5)])
            "total" 0) dom.2)) := by
  have hgfb : get_frequency_bands (fun _ => (13 : ℚ) / 2) [(30, 5)] =
      [("sub_bass", 1 / 2), ("bass", 0), ("low_mid", 0), ("mid", 0),
       ("high_mid", 0), ("treble", 0), ("sparkle", 0), ("total", 1 / 4)] := by
    norm_num [get_frequency_bands, FREQUENCY_BANDS, bandSum, normalizeBand,
      normalizeTotal, clamp01, List.filter, LOG_ENERGY_MIN_BAND,
      LOG_ENERGY_RANGE_BAND, LOG_ENERGY_MIN_TOTAL, LOG_ENERGY_RANGE_TOTAL,
      AUDIBLE_FREQ_MIN, AUDIBLE_FREQ_MAX, max_eq_right, min_eq_right]
  refine c6_dominant_band (fun _ => 13 / 2) [(30, 5)]
    [("type", PyVal.pstr "audio"),
     ("bands", PyVal.pbands [("sub_bass", 1 / 2), ("bass", 0),
       ("low_mid", 0), ("mid", 0), ("high_mid", 0), ("treble", 0),
       ("sparkle", 0), ("total", 1 / 4)]),
     ("frequency", PyVal.pint 40), ("amplitude", PyVal.pnum (1 / 2))] ?_
  rw [hgfb]
  have hfil : List.filter (fun p => !(p.1 == "total"))
      [(("sub_bass" : String), (1 : ℚ) / 2), ("bass", 0), ("low_mid", 0),
       ("mid", 0), ("high_mid", 0), ("treble", 0), ("sparkle", 0),
       ("total", 1 / 4)] =
      [("sub_bass", 1 / 2), ("bass", 0), ("low_mid", 0), ("mid", 0),
       ("high_mid", 0), ("treble", 0), ("sparkle", 0)] := rfl
  have hmax : pythonMaxBy Prod.snd (("sub_bass" : String), (1 : ℚ) / 2)
      [("bass", 0), ("low_mid", 0), ("mid", 0), ("high_mid", 0),
       ("treble", 0), ("sparkle", 0)] = ("sub_bass", 1 / 2) := by
    norm_num [pythonMaxBy]
  have hlook : lookupD [(("sub_bass" : String), (1 : ℚ) / 2), ("bass", 0),
      ("low_mid", 0), ("mid", 0), ("high_mid", 0), ("treble", 0),
      ("sparkle", 0), ("total", 1 / 4)] "total" 0 = 1 / 4 := rfl
  simp only [send_event, hfil, hmax, hlook]
  rw [if_neg (by norm_num)]
  norm_num [lookupD, List.find?, BAND_CENTER_FREQUENCIES, DEFAULT_FREQUENCY,
    max_eq_right]

/-- C3: for every valid `BandEvent` — the daemon's event shape with the
seven bands plus `total` all finite floats, an integer frequency and a
finite-float amplitude — decoding the encoded payload yields the event
again: `json.loads(json.dumps(E).encode("utf-8").decode("utf-8")) == E`. -/
theorem c3_decode_encode_roundtrip (bands : JMembers) (freq am : Int)
    (ae : Nat) (hbands : bandsShape bands bandKeyList = true)
    (hae : 1 ≤ ae) :
    validBandEvent (bandEventJson bands freq am ae) = true ∧
    decodePayload (encodePayload (bandEventJson bands freq am ae)) =
      some (bandEventJson bands freq am ae) := by
  constructor
  · simp [validBandEvent, bandEventJson, hbands, hae]
  · apply decodePayload_encodePayload
    have hwfb : wfMembers bands = true :=
      bandsShape_wf bandKeyList bands (by decide) hbands
    simp [bandEventJson, wfVal, wfMembers, hwfb, hae]
    exact ⟨⟨by decide, by decide⟩, by decide, by decide, by decide⟩

theorem c3_witness :
    validBandEvent (bandEventJson
      (.cons ("sub_bass".toList) (.jnum 1 1)
        (.cons ("bass".toList) (.jnum 0 1)
          (.cons ("low_mid".toList) (.jnum 0 1)
            (.cons ("mid".toList) (.jnum 0 1)
              (.cons ("high_mid".toList) (.jnum 0 1)
                (.cons ("treble".toList) (.jnum 0 1)
                  (.cons ("sparkle".toList) (.jnum 0 1)
                    (.cons ("total".toList) (.jnum 73 2) .nil))))))))
      150 8 1) = true ∧
    decodePayload (encodePayload (bandEventJson
      (.cons ("sub_bass".toList) (.jnum 1 1)
        (.cons ("bass".toList) (.jnum 0 1)
          (.cons ("low_mid".toList) (.jnum 0 1)
            (.cons ("mid".toList) (.jnum 0 1)
              (.cons ("high_mid".toList) (.jnum 0 1)
                (.cons ("treble".toList) (.jnum 0 1)
                  (.cons ("sparkle".toList) (.jnum 0 1)
                    (.cons ("total".toList) (.jnum 73 2) .nil))))))))
      150 8 1)) =
      some (bandEventJson
        (.cons ("sub_bass".toList) (.jnum 1 1)
          (.cons ("bass".toList) (.jnum 0 1)
            (.cons ("low_mid".toList) (.jnum 0 1)
              (.cons ("mid".toList) (.jnum 0 1)
                (.cons ("high_mid".toList) (.jnum 0 1)
                  (.cons ("treble".toList) (.jnum 0 1)
                    (.cons ("sparkle".toList) (.jnum 0 1)
                      (.cons ("total".toList) (.jnum 73 2) .nil))))))))
        150 8 1) :=
  c3_decode_encode_roundtrip
    (.cons ("sub_bass".toList) (.jnum 1 1)
      (.cons ("bass".toList) (.jnum 0 1)
        (.cons ("low_mid".toList) (.jnum 0 1)
          (.cons ("mid".toList) (.jnum 0 1)
            (.cons ("high_mid".toList) (.jnum 0 1)
              (.cons ("treble".toList) (.jnum 0 1)
                (.cons ("sparkle".toList) (.jnum 0 1)
                  (.cons ("total".toList) (.jnum 73 2) .nil))))))))
    150 8 1 (by decide) (by decide)

/-- C8 counterexample: the claim says every published BandEvent carries a
`timestamp` field; a concrete publish through `send_event` emits an event
whose `timestamp` lookup is `none` — the daemon's `event_data` dict is
built without a `timestamp` key. -/
theorem c8_no_timestamp_counterexample :
    (send_event [("sub_bass", 1), ("bass", 0), ("low_mid", 0), ("mid", 0),
      ("high_mid", 0), ("treble", 0), ("sparkle", 0), ("total", 1)]).isSome
      = true ∧
    Option.bind (send_event [("sub_bass", 1), ("bass", 0), ("low_mid", 0),
      ("mid", 0), ("high_mid", 0), ("treble", 0), ("sparkle", 0),
      ("total", 1)]) (fun ev => pyLookup ev "timestamp") = none := by
  have hsend : send_event [("sub_bass", 1), ("bass", 0), ("low_mid", 0),
      ("mid", 0), ("high_mid", 0), ("treble", 0), ("sparkle", 0),
      ("total", 1)] = some
      [("type", PyVal.pstr "audio"),
       ("bands", PyVal.pbands [("sub_bass", 1), ("bass", 0), ("low_mid", 0),
         ("mid", 0), ("high_mid", 0), ("treble", 0), ("sparkle", 0),
         ("total", 1)]),
       ("frequency", PyVal.pint 40), ("amplitude", PyVal.pnum 1)] := by
    have hfil : List.filter (fun p => !(p.1 == "total"))
        [(("sub_bass" : String), (1 : ℚ)), ("bass", 0), ("low_mid", 0),
         ("mid", 0), ("high_mid", 0), ("treble", 0), ("sparkle", 0),
         ("total", 1)] =
        [("sub_bass", 1), ("bass", 0), ("low_mid", 0), ("mid", 0),
         ("high_mid", 0), ("treble", 0), ("sparkle", 0)] := rfl
    have hmax : pythonMaxBy Prod.snd (("sub_bass" : String), (1 : ℚ))
        [("bass", 0), ("low_mid", 0), ("mid", 0), ("high_mid", 0),
         ("treble", 0), ("sparkle", 0)] = ("sub_bass", 1) := by
      norm_num [pythonMaxBy]
    have hlook : lookupD [(("sub_bass" : String), (1 : ℚ)), ("bass", 0),
        ("low_mid", 0), ("mid", 0), ("high_mid", 0), ("treble", 0),
        ("sparkle", 0), ("total", 1)] "total" 0 = 1 := rfl
    have hcf : lookupD BAND_CENTER_FREQUENCIES "sub_bass"
        DEFAULT_FREQUENCY = 40 := rfl
    simp only [send_event, hfil, hmax, hlook, hcf]
    rw [if_neg (by norm_num), max_self]
  rw [hsend]
  constructor
  · rfl
  · simp [pyLookup, List.find?]

/-- C8 amended: published BandEvents carry no `timestamp` field at all —
`send_event` builds the event dict with exactly the keys `type`, `bands`,
`frequency` and `amplitude` — so a consumer's timestamp query on a
received event finds nothing (the schema treats `timestamp` as optional,
defaulting to absent). -/
theorem c8_published_events_have_no_timestamp
    (bands : List (String × ℚ)) (ev : List (String × PyVal))
    (h : send_event bands = some ev) :
    pyLookup ev "timestamp" = none := by
  rcases hfil : bands.filter (fun p => !(p.1 == "total")) with _ | ⟨b, bs⟩ <;>
    simp only [send_event, hfil] at h
  · simp at h
  · split_ifs at h with hth
    have hev := Option.some.inj h
    rw [← hev]
    simp [pyLookup, List.find?]

theorem c8_witness :
    pyLookup [("type", PyVal.pstr "audio"),
      ("bands", PyVal.pbands [("sub_bass", 1), ("bass", 0), ("low_mid", 0),
        ("mid", 0), ("high_mid", 0), ("treble", 0), ("sparkle", 0),
        ("total", 1)]),
      ("frequency", PyVal.pint 40), ("amplitude", PyVal.pnum 1)]
      "timestamp" = none :=
  c8_published_events_have_no_timestamp
    [("sub_bass", 1), ("bass", 0), ("low_mid", 0), ("mid", 0),
     ("high_mid", 0), ("treble", 0), ("sparkle", 0), ("total", 1)]
    [("type", PyVal.pstr "audio"),
     ("bands", PyVal.pbands [("sub_bass", 1), ("bass", 0), ("low_mid", 0),
       ("mid", 0), ("high_mid", 0), ("treble", 0), ("sparkle", 0),
       ("total", 1)]),
     ("frequency", PyVal.pint 40), ("amplitude", PyVal.pnum 1)]
    (by
      have hfil : List.filter (fun p => !(p.1 == "total"))
          [(("sub_bass" : String), (1 : ℚ)), ("bass", 0), ("low_mid", 0),
           ("mid", 0), ("high_mid", 0), ("treble", 0), ("sparkle", 0),
           ("total", 1)] =
          [("sub_bass", 1), ("bass", 0), ("low_mid", 0), ("mid", 0),
           ("high_mid", 0), ("treble", 0), ("sparkle", 0)] := rfl
      have hmax : pythonMaxBy Prod.snd (("sub_bass" : String), (1 : ℚ))
          [("bass", 0), ("low_mid", 0), ("mid", 0), ("high_mid", 0),
           ("treble", 0), ("sparkle", 0)] = ("sub_bass", 1) := by
        norm_num [pythonMaxBy]
      have hlook : lookupD [(("sub_bass" : String), (1 : ℚ)), ("bass", 0),
          ("low_mid", 0), ("mid", 0), ("high_mid", 0), ("treble", 0),
          ("sparkle", 0), ("total", 1)] "total" 0 = 1 := rfl
      have hcf : lookupD BAND_CENTER_FREQUENCIES "sub_bass"
          DEFAULT_FREQUENCY = 40 := rfl
      simp only [send_event, hfil, hmax, hlook, hcf]
      rw [if_neg (by norm_num), max_self])

end Aether
